import Mathlib

/-!
Verification development for the bifrost Hue-bridge emulator.

The definitions below are shallow embeddings of the repository's Rust
source: machine integers become `Nat` with explicit reduction modulo
`2 ^ 64` (resp. `2 ^ 32`) where overflow matters, fallible operations
return `Option` or `Except`, and stateful operations thread an explicit
store value. Each definition's doc comment names the source function it
embeds.
-/

namespace Bifrost

/-! ## Resource types and deterministic identity
(from `crates/hue/src/api/resource.rs`) -/

/-- The resource-type tag enumeration `RType`
(from `crates/hue/src/api/resource.rs`). -/
inductive RType where
  | AuthV1 | BehaviorInstance | BehaviorScript | Bridge | BridgeHome
  | Button | CameraMotion | Contact | Device | DevicePower
  | DeviceSoftwareUpdate | Entertainment | EntertainmentConfiguration
  | GeofenceClient | Geolocation | GroupedLight | GroupedLightLevel
  | GroupedMotion | Homekit | InternetConnectivity | Light | LightLevel
  | Matter | MatterFabric | Motion | PrivateGroup | PublicImage
  | RelativeRotary | Room | Scene | ServiceGroup | SmartScene | Taurus
  | Tamper | Temperature | ZgpConnectivity | ZigbeeConnectivity
  | ZigbeeDeviceDiscovery | Zone
  deriving DecidableEq, Repr

/-- The fixed per-variant index hashed by `impl Hash for RType`
(from `crates/hue/src/api/resource.rs`; the numbering is append-only
and never reused). -/
def RType.index : RType → Nat
  | .AuthV1 => 0
  | .BehaviorInstance => 1
  | .BehaviorScript => 2
  | .Bridge => 3
  | .BridgeHome => 4
  | .Button => 5
  | .Device => 6
  | .DevicePower => 7
  | .DeviceSoftwareUpdate => 8
  | .Entertainment => 9
  | .EntertainmentConfiguration => 10
  | .GeofenceClient => 11
  | .Geolocation => 12
  | .GroupedLight => 13
  | .InternetConnectivity => 38
  | .Light => 17
  | .LightLevel => 18
  | .Matter => 19
  | .Motion => 20
  | .PrivateGroup => 21
  | .PublicImage => 22
  | .RelativeRotary => 23
  | .Room => 24
  | .Scene => 25
  | .SmartScene => 26
  | .Taurus => 27
  | .Temperature => 28
  | .ZigbeeConnectivity => 29
  | .ZigbeeDeviceDiscovery => 30
  | .Zone => 31
  | .CameraMotion => 32
  | .Contact => 33
  | .MatterFabric => 34
  | .ServiceGroup => 35
  | .Tamper => 36
  | .ZgpConnectivity => 37
  | .GroupedLightLevel => 14
  | .GroupedMotion => 15
  | .Homekit => 16

/-- A `ResourceLink`: 128-bit UUID (as a natural number below `2 ^ 128`)
together with a resource-type tag (from `crates/hue/src/api/resource.rs`). -/
structure ResourceLink where
  rid : Nat
  rtype : RType
  deriving DecidableEq, Repr

/-! ### SipHash-1-3 (the `siphasher` crate's `SipHasher13`, keys 0/0) -/

/-- 64-bit left rotation. -/
def rotl64 (x n : Nat) : Nat :=
  ((x <<< n) ||| (x >>> (64 - n))) % 2 ^ 64

/-- The four 64-bit lanes of the SipHash state. -/
structure SipState where
  v0 : Nat
  v1 : Nat
  v2 : Nat
  v3 : Nat

/-- One SipHash round. -/
def sipRound (s : SipState) : SipState :=
  let a0 := (s.v0 + s.v1) % 2 ^ 64
  let a1 := rotl64 s.v1 13
  let a1 := a1 ^^^ a0
  let a0 := rotl64 a0 32
  let a2 := (s.v2 + s.v3) % 2 ^ 64
  let a3 := rotl64 s.v3 16
  let a3 := a3 ^^^ a2
  let a0 := (a0 + a3) % 2 ^ 64
  let a3 := rotl64 a3 21
  let a3 := a3 ^^^ a0
  let a2 := (a2 + a1) % 2 ^ 64
  let a1 := rotl64 a1 17
  let a1 := a1 ^^^ a2
  let a2 := rotl64 a2 32
  ⟨a0, a1, a2, a3⟩

/-- Little-endian interpretation of a byte list (first byte least
significant). -/
def leWord (bytes : List Nat) : Nat :=
  bytes.foldr (fun b acc => b + 256 * acc) 0

/-- Little-endian byte encoding of `n` over `len` bytes. -/
def leBytes (n len : Nat) : List Nat :=
  match len with
  | 0 => []
  | l + 1 => n % 256 :: leBytes (n / 256) l

/-- Feed all full 8-byte message words into the state (`c = 1`
compression round per word); return the remaining tail. -/
def sipBlocks (s : SipState) (msg : List Nat) : SipState × List Nat :=
  match msg with
  | b0 :: b1 :: b2 :: b3 :: b4 :: b5 :: b6 :: b7 :: rest =>
    let m := leWord [b0, b1, b2, b3, b4, b5, b6, b7]
    let s := { s with v3 := s.v3 ^^^ m }
    let s := sipRound s
    let s := { s with v0 := s.v0 ^^^ m }
    sipBlocks s rest
  | rest => (s, rest)

/-- SipHash-1-3 of a byte string with key `(0, 0)`, exactly as
`SipHasher13::new().finish()` computes it. -/
def sipHash13 (msg : List Nat) : Nat :=
  let s : SipState :=
    ⟨0x736f6d6570736575, 0x646f72616e646f6d, 0x6c7967656e657261, 0x7465646279746573⟩
  let (s, rem) := sipBlocks s msg
  let b := leWord rem + (msg.length % 256) * 2 ^ 56
  let s := { s with v3 := s.v3 ^^^ b }
  let s := sipRound s
  let s := { s with v0 := s.v0 ^^^ b }
  let s := { s with v2 := s.v2 ^^^ 0xff }
  let s := sipRound (sipRound (sipRound s))
  ((s.v0 ^^^ s.v1) ^^^ s.v2) ^^^ s.v3

/-! ### SHA-1 and UUIDv5 (the `uuid` crate's `Uuid::new_v5`) -/

/-- 32-bit left rotation. -/
def rotl32 (x n : Nat) : Nat :=
  ((x <<< n) ||| (x >>> (32 - n))) % 2 ^ 32

/-- Big-endian interpretation of a byte list. -/
def beWord (bytes : List Nat) : Nat :=
  bytes.foldl (fun acc b => acc * 256 + b) 0

/-- Big-endian byte encoding of `n` over `len` bytes. -/
def beBytes (n len : Nat) : List Nat :=
  (leBytes n len).reverse

/-- SHA-1 message padding: a `0x80` byte, zeros, and the 64-bit
big-endian bit length, to a multiple of 64 bytes. -/
def sha1Pad (msg : List Nat) : List Nat :=
  let len := msg.length
  let zeros := (64 - (len + 9) % 64) % 64
  msg ++ 0x80 :: List.replicate zeros 0 ++ beBytes (len * 8) 8

/-- Split a list into chunks of `k` elements, structurally recursive on
a fuel bound so the kernel can evaluate it (`k > 0`; a short final chunk
is kept, but callers always pass lists of length divisible by `k`). -/
def chunksGo (k : Nat) : Nat → List Nat → List (List Nat)
  | _, [] => []
  | 0, _ :: _ => []
  | fuel + 1, a :: t => ((a :: t).take k) :: chunksGo k fuel ((a :: t).drop k)

/-- Split a list into chunks of `k` elements. -/
def chunks (k : Nat) (l : List Nat) : List (List Nat) :=
  if k = 0 then [] else chunksGo k l.length l

/-- Extend the 16 schedule words to 80:
`w[i] = rotl1 (w[i-3] xor w[i-8] xor w[i-14] xor w[i-16])`. -/
def sha1Extend (w : List Nat) (steps : Nat) : List Nat :=
  match steps with
  | 0 => w
  | s + 1 =>
    let n := w.length
    let x := ((w.getD (n - 3) 0 ^^^ w.getD (n - 8) 0) ^^^ w.getD (n - 14) 0) ^^^ w.getD (n - 16) 0
    sha1Extend (w ++ [rotl32 x 1]) s

/-- The five 32-bit SHA-1 chaining values. -/
structure Sha1State where
  h0 : Nat
  h1 : Nat
  h2 : Nat
  h3 : Nat
  h4 : Nat

/-- One SHA-1 compression round at index `i` with schedule word `w`. -/
def sha1Round (i : Nat) (w : Nat) (s : Sha1State) : Sha1State :=
  let (f, k) :=
    if i < 20 then ((s.h1 &&& s.h2) ||| ((s.h1 ^^^ (2 ^ 32 - 1)) &&& s.h3), 0x5A827999)
    else if i < 40 then ((s.h1 ^^^ s.h2) ^^^ s.h3, 0x6ED9EBA1)
    else if i < 60 then
      (((s.h1 &&& s.h2) ||| (s.h1 &&& s.h3)) ||| (s.h2 &&& s.h3), 0x8F1BBCDC)
    else ((s.h1 ^^^ s.h2) ^^^ s.h3, 0xCA62C1D6)
  let temp := (rotl32 s.h0 5 + f + s.h4 + k + w) % 2 ^ 32
  ⟨temp, s.h0, rotl32 s.h1 30, s.h2, s.h3⟩

/-- Compress one 64-byte block into the chaining state. -/
def sha1Block (s : Sha1State) (block : List Nat) : Sha1State :=
  let w := sha1Extend ((chunks 4 block).map beWord) 64
  let r := (List.range 80).foldl (fun t i => sha1Round i (w.getD i 0) t) s
  ⟨(s.h0 + r.h0) % 2 ^ 32, (s.h1 + r.h1) % 2 ^ 32, (s.h2 + r.h2) % 2 ^ 32,
   (s.h3 + r.h3) % 2 ^ 32, (s.h4 + r.h4) % 2 ^ 32⟩

/-- SHA-1 digest (20 bytes) of a byte string. -/
def sha1 (msg : List Nat) : List Nat :=
  let init : Sha1State := ⟨0x67452301, 0xEFCDAB89, 0x98BADCFE, 0x10325476, 0xC3D2E1F0⟩
  let s := (chunks 64 (sha1Pad msg)).foldl sha1Block init
  beBytes s.h0 4 ++ beBytes s.h1 4 ++ beBytes s.h2 4 ++ beBytes s.h3 4 ++ beBytes s.h4 4

/-- The bytes of `Uuid::NAMESPACE_OID`
(`6ba7b812-9dad-11d1-80b4-00c04fd430c8`). -/
def oidNamespace : List Nat :=
  [0x6b, 0xa7, 0xb8, 0x12, 0x9d, 0xad, 0x11, 0xd1,
   0x80, 0xb4, 0x00, 0xc0, 0x4f, 0xd4, 0x30, 0xc8]

/-- UUIDv5: SHA-1 of namespace plus seed, truncated to 16 bytes with the
version and variant bits forced, read as a 128-bit big-endian number. -/
def uuidv5 (ns seed : List Nat) : Nat :=
  let d := (sha1 (ns ++ seed)).take 16
  let d := d.set 6 ((d.getD 6 0 &&& 0x0f) ||| 0x50)
  let d := d.set 8 ((d.getD 8 0 &&& 0x3f) ||| 0x80)
  beWord d

/-- UTF-8 encoding of one character. -/
def utf8Char (c : Char) : List Nat :=
  let n := c.toNat
  if n < 0x80 then [n]
  else if n < 0x800 then
    [0xC0 ||| (n >>> 6), 0x80 ||| (n &&& 0x3F)]
  else if n < 0x10000 then
    [0xE0 ||| (n >>> 12), 0x80 ||| ((n >>> 6) &&& 0x3F), 0x80 ||| (n &&& 0x3F)]
  else
    [0xF0 ||| (n >>> 18), 0x80 ||| ((n >>> 12) &&& 0x3F),
     0x80 ||| ((n >>> 6) &&& 0x3F), 0x80 ||| (n &&& 0x3F)]

/-- UTF-8 encoding of a string. -/
def utf8Encode (s : String) : List Nat :=
  s.data.flatMap utf8Char

/-- `RType::deterministic(key)` for a string key
(from `crates/hue/src/api/resource.rs`): `h1` is the SipHash-1-3 of the
tag index (hashed by Rust as its 8 little-endian bytes), `h2` is the
SipHash-1-3 of the key (hashed by Rust as its UTF-8 bytes followed by a
`0xff` terminator), and the id is the UUIDv5 over namespace OID of the
16-byte seed `LE64(h1) ++ LE64(h2)`. -/
def RType.deterministic (t : RType) (key : String) : ResourceLink :=
  let h1 := sipHash13 (leBytes t.index 8)
  let h2 := sipHash13 (utf8Encode key ++ [0xff])
  let seed := leBytes h1 8 ++ leBytes h2 8
  ⟨uuidv5 oidNamespace seed, t⟩

/-! ## The resource store

The store operations `Resources::delete` and `Resources::get_next_scene_id`
are embedded from `src/resource.rs`. The `Resource` sum type itself and its
`owner()` projection live in a part of the `hue` crate that is not in the
sources at hand, so those are modelled from the spec (§3 of the spec:
relationship fields per variant, with `owner` the single backward link
followed by the delete cascade). The model restricts the ~40 variants to the
ones that carry cross-references relevant to deletion. -/

/-- A Light resource: owned by a Device. -/
structure LightRes where
  owner : ResourceLink
  deriving DecidableEq, Repr

/-- A Room resource: child devices and service links. -/
structure RoomRes where
  children : List ResourceLink
  services : List ResourceLink
  deriving DecidableEq, Repr

/-- A Zone resource: child lights and service links. -/
structure ZoneRes where
  children : List ResourceLink
  services : List ResourceLink
  deriving DecidableEq, Repr

/-- The BridgeHome resource: child devices/rooms and service links. -/
structure BridgeHomeRes where
  children : List ResourceLink
  services : List ResourceLink
  deriving DecidableEq, Repr

/-- A Device resource: service links. -/
structure DeviceRes where
  services : List ResourceLink
  deriving DecidableEq, Repr

/-- A GroupedLight resource: owned by a Room or the BridgeHome. -/
structure GroupedLightRes where
  owner : ResourceLink
  deriving DecidableEq, Repr

/-- One scene action: targets a Light. -/
structure SceneAction where
  target : ResourceLink
  deriving DecidableEq, Repr

/-- A Scene resource: its group (Room/Zone) and per-light actions. -/
structure SceneRes where
  group : ResourceLink
  actions : List SceneAction
  deriving DecidableEq, Repr

/-- One member of an entertainment channel. -/
structure ECChannelMember where
  service : ResourceLink
  deriving DecidableEq, Repr

/-- One entertainment channel. -/
structure ECChannel where
  members : List ECChannelMember
  deriving DecidableEq, Repr

/-- One entertainment service location. -/
structure ECServiceLocation where
  service : ResourceLink
  deriving DecidableEq, Repr

/-- An EntertainmentConfiguration resource: service locations, channels
and light services. -/
structure ECRes where
  serviceLocations : List ECServiceLocation
  channels : List ECChannel
  lightServices : List ResourceLink
  deriving DecidableEq, Repr

/-- A Motion sensor resource: owned by a Device. -/
structure MotionRes where
  owner : ResourceLink
  deriving DecidableEq, Repr

/-- Modelled from the spec: the `Resource` tagged union of the `hue` crate
(its definition is not among the sources at hand; §3 of the spec lists the
variants and their reference-holding fields). Restricted to the variants
carrying cross-references relevant to the delete cascade. -/
inductive Resource where
  | light (l : LightRes)
  | room (r : RoomRes)
  | zone (z : ZoneRes)
  | bridgeHome (b : BridgeHomeRes)
  | device (d : DeviceRes)
  | groupedLight (g : GroupedLightRes)
  | scene (s : SceneRes)
  | entertainmentConfiguration (e : ECRes)
  | motion (m : MotionRes)
  deriving DecidableEq, Repr

/-- `Resource::rtype()`: the type tag of a resource value. -/
def Resource.rtype : Resource → RType
  | .light _ => .Light
  | .room _ => .Room
  | .zone _ => .Zone
  | .bridgeHome _ => .BridgeHome
  | .device _ => .Device
  | .groupedLight _ => .GroupedLight
  | .scene _ => .Scene
  | .entertainmentConfiguration _ => .EntertainmentConfiguration
  | .motion _ => .Motion

/-- Modelled from the spec: `Resource::owner()` (not among the sources at
hand). Per §3 of the spec, `GroupedLight.owner` points to a Room or the
BridgeHome, sensors are owned by their Device, a Light by its Device, and a
Scene's group link is the backward link enforced at delete time. -/
def Resource.owner : Resource → Option ResourceLink
  | .light l => some l.owner
  | .groupedLight g => some g.owner
  | .scene s => some s.group
  | .motion m => some m.owner
  | _ => none

/-- The per-resource sidecar `AuxData { index, topic }`
(modelled from the spec §3; the struct lives in `src/model/state.rs`,
not among the sources at hand). -/
structure AuxData where
  index : Option Nat
  topic : Option String
  deriving DecidableEq, Repr

/-- The resource store: the id-keyed resource map and the AuxData sidecar
(modelled from the spec §3 `Store`; maps are association lists with unique
keys). -/
structure Store where
  res : List (Nat × Resource)
  aux : List (Nat × AuxData)
  deriving DecidableEq, Repr

/-- Map lookup by id. -/
def Store.get (s : Store) (id : Nat) : Option Resource :=
  (s.res.find? (fun p => p.1 == id)).map (·.2)

/-- Sidecar lookup by id (`State::aux_get`, with errors collapsed to
`none` as in the `let Ok(..) else continue` use sites). -/
def Store.auxGet (s : Store) (id : Nat) : Option AuxData :=
  (s.aux.find? (fun p => p.1 == id)).map (·.2)

/-- The reference-purging pass of `Resources::delete`
(from `src/resource.rs`): remove the link from every BridgeHome, Device,
EntertainmentConfiguration, Room and Zone. Channels that contain the link
among their members are dropped whole (`retain` on `channels`). -/
def purgeResource (link : ResourceLink) : Resource → Resource
  | .bridgeHome b =>
    .bridgeHome ⟨b.children.filter (fun x => !(x == link)),
                 b.services.filter (fun x => !(x == link))⟩
  | .device d => .device ⟨d.services.filter (fun x => !(x == link))⟩
  | .entertainmentConfiguration e =>
    .entertainmentConfiguration
      ⟨e.serviceLocations.filter (fun sl => !(sl.service == link)),
       e.channels.filter (fun ch => !(ch.members.any (fun m => m.service == link))),
       e.lightServices.filter (fun ls => !(ls == link))⟩
  | .room r =>
    .room ⟨r.children.filter (fun x => !(x == link)),
           r.services.filter (fun x => !(x == link))⟩
  | .zone z =>
    .zone ⟨z.children.filter (fun x => !(x == link)),
           z.services.filter (fun x => !(x == link))⟩
  | other => other

/-- `Resources::delete` (from `src/resource.rs`), fuel-indexed and
sequentialized: the Rust function purges references to the link, removes
the resource, then recursively deletes every resource whose owner was the
link. Here the depth-first cascade is realized by prepending the owned
links to the work list; one unit of fuel is spent per deleted resource.
`none` models the `Err` path (link not found) and fuel exhaustion, which
never occurs when the fuel is at least the store size. -/
def deleteSeq : Nat → Store → List ResourceLink → Option Store
  | _, s, [] => some s
  | 0, _, _ :: _ => none
  | fuel + 1, s, link :: rest =>
    match s.get link.rid with
    | none => none
    | some _ =>
      let res1 := s.res.map (fun p => (p.1, purgeResource link p.2))
      let res2 := res1.filter (fun p => !(p.1 == link.rid))
      let owned := (res2.filter (fun p => p.2.owner == some link)).map
        (fun p => ResourceLink.mk p.1 p.2.rtype)
      deleteSeq fuel ⟨res2, s.aux⟩ (owned ++ rest)

/-- `Resources::delete` at adequate fuel. -/
def Store.delete (s : Store) (link : ResourceLink) : Option Store :=
  deleteSeq s.res.length s [link]

/-- The Hue error cases relevant here (`HueError::Full`). -/
inductive HueErr where
  | full (t : RType)
  deriving DecidableEq, Repr

/-- The AuxData indices of all scenes whose group equals `room`
(the set built by the first loop of `Resources::get_next_scene_id`). -/
def sceneIndices (s : Store) (room : ResourceLink) : List Nat :=
  s.res.filterMap (fun p =>
    match p.2 with
    | .scene scn =>
      if scn.group == room then
        match s.auxGet p.1 with
        | some a => a.index
        | none => none
      else none
    | _ => none)

/-- The scan `for x in 0..n { if free return x }`: first candidate
starting at `start` (with `n` candidates left) not in `taken`. -/
def findFree (taken : List Nat) : Nat → Nat → Option Nat
  | _, 0 => none
  | x, n + 1 => if taken.contains x then findFree taken (x + 1) n else some x

/-- `Resources::get_next_scene_id` (from `src/resource.rs`): the first
index in `0..100` not used by a scene of the room, else
`HueError::Full(RType::Scene)`. -/
def getNextSceneId (s : Store) (room : ResourceLink) : Except HueErr Nat :=
  match findFree (sceneIndices s room) 0 100 with
  | some x => .ok x
  | none => .error (.full .Scene)

/-! ## Strings

Rust strings are modelled as `List Char`. `rustTrim` is `str::trim`
(Unicode `White_Space`), `asciiLower` is `char::to_ascii_lowercase`,
`trimRightBy` drops trailing characters structurally (so that proofs can
proceed by plain induction). -/

/-- Strings as character lists. -/
abbrev Str := List Char

/-- `char::is_whitespace` (the Unicode `White_Space` property). -/
def isRustWhitespace (c : Char) : Bool :=
  let n := c.toNat
  (9 ≤ n && n ≤ 13) || n == 32 || n == 0x85 || n == 0xA0 || n == 0x1680 ||
  (0x2000 ≤ n && n ≤ 0x200A) || n == 0x2028 || n == 0x2029 ||
  n == 0x202F || n == 0x205F || n == 0x3000

/-- `char::to_ascii_lowercase`. -/
def asciiLower (c : Char) : Char :=
  if 65 ≤ c.toNat && c.toNat ≤ 90 then Char.ofNat (c.toNat + 32) else c

/-- `char::is_ascii_alphanumeric`. -/
def isAsciiAlnum (c : Char) : Bool :=
  let n := c.toNat
  (48 ≤ n && n ≤ 57) || (65 ≤ n && n ≤ 90) || (97 ≤ n && n ≤ 122)

/-- `char::is_ascii_whitespace` (space, tab, newline, form feed,
carriage return). -/
def isAsciiWs (c : Char) : Bool :=
  let n := c.toNat
  n == 32 || n == 9 || n == 10 || n == 12 || n == 13

/-- Drop the trailing characters satisfying `p`. -/
def trimRightBy (p : Char → Bool) : Str → Str
  | [] => []
  | c :: rest =>
    let r := trimRightBy p rest
    if r.isEmpty then if p c then [] else [c] else c :: r

/-- `str::trim`. -/
def rustTrim (s : Str) : Str :=
  trimRightBy isRustWhitespace (s.dropWhile isRustWhitespace)

/-- `str::starts_with` for string patterns. -/
def startsWithStr : Str → Str → Bool
  | _, [] => true
  | [], _ :: _ => false
  | h :: hs, p :: ps => h == p && startsWithStr hs ps

/-- `str::contains` for string patterns (substring search). -/
def containsSub : Str → Str → Bool
  | [], pat => pat.isEmpty
  | h :: t, pat => startsWithStr (h :: t) pat || containsSub t pat

/-- `str::eq_ignore_ascii_case`. -/
def eqIgnoreAsciiCase (a b : Str) : Bool :=
  a.map asciiLower == b.map asciiLower

/-! ## HA UI configuration (from `src/model/hass.rs`) -/

/-- `HassSensorKind`. -/
inductive HassSensorKind where
  | Motion | Contact | Ignore
  deriving DecidableEq, Repr

/-- `HassSwitchMode`. -/
inductive HassSwitchMode where
  | Plug | Light
  deriving DecidableEq, Repr

/-- `HassLightArchetype`. -/
inductive HassLightArchetype where
  | ClassicBulb | SultanBulb | CandleBulb | SpotBulb | VintageBulb
  | FloodBulb | CeilingRound | CeilingSquare | PendantRound | PendantLong
  | FloorShade | FloorLantern | TableShade | WallSpot | WallLantern
  | RecessedCeiling | HueLightstrip | HuePlay | HueGo | HueBloom
  | HueIris | HueSigne | HueTube
  deriving DecidableEq, Repr

/-- `HassFakeCloudMode`. -/
inductive HassFakeCloudMode where
  | Off | Connected | Outage | Custom
  deriving DecidableEq, Repr

/-- `HassPortalCommunication`. -/
inductive HassPortalCommunication where
  | Connected | Disconnected | Error
  deriving DecidableEq, Repr

/-- `HassPortalConnectionState`. -/
inductive HassPortalConnectionState where
  | Connected | Disconnected | Connecting
  deriving DecidableEq, Repr

/-- `HassPortalAction`. -/
inductive HassPortalAction where
  | None | LinkButton
  deriving DecidableEq, Repr

/-- `HassFakeCloudState`. -/
structure HassFakeCloudState where
  internet : Bool
  signedon : Bool
  incoming : Bool
  outgoing : Bool
  communication : HassPortalCommunication
  connectionstate : HassPortalConnectionState
  legacy : Bool
  trusted : Bool
  action : HassPortalAction
  deriving DecidableEq, Repr

/-- `HassRoomConfig`. -/
structure HassRoomConfig where
  id : Str
  name : Str
  sourceArea : Option Str
  autoCreated : Bool
  deriving DecidableEq, Repr

/-- `HassEntityPreference`. -/
structure HassEntityPreference where
  visible : Option Bool
  roomId : Option Str
  aliasName : Option Str
  sensorKind : Option HassSensorKind
  sensorEnabled : Option Bool
  switchMode : Option HassSwitchMode
  lightArchetype : Option HassLightArchetype
  deriving DecidableEq, Repr

/-- `HassEntityPreference::default()`: all fields unset. -/
def emptyPreference : HassEntityPreference :=
  ⟨none, none, none, none, none, none, none⟩

/-- `HassUiConfig`. The `entity_preferences` hash map is an association
list (unique keys in any state Rust can produce; lookup takes the first
match). -/
structure HassUiConfig where
  hiddenEntityIds : List Str
  excludeEntityIds : List Str
  excludeNamePatterns : List Str
  includeUnavailable : Bool
  rooms : List HassRoomConfig
  entityPreferences : List (Str × HassEntityPreference)
  ignoredAreaNames : List Str
  defaultAddNewDevicesToHue : Bool
  syncHassAreasToRooms : Bool
  fakeCloudMode : HassFakeCloudMode
  fakeCloudCustom : HassFakeCloudState
  hassTimezone : Option Str
  hassLat : Option Str
  hassLong : Option Str
  deriving DecidableEq, Repr

/-- `HassUiConfig::DEFAULT_ROOM_ID`. -/
def defaultRoomId : Str := "home-assistant".data

/-- `HassUiConfig::DEFAULT_ROOM_NAME`. -/
def defaultRoomName : Str := "Home Assistant".data

/-- `HassUiConfig::sanitize_id`'s character loop, carrying the
`last_dash` flag: lowercase and keep ASCII alphanumerics, collapse runs
of whitespace/`-`/`_` to one dash, drop everything else. -/
def sanCore : Str → Bool → Str
  | [], _ => []
  | c :: cs, lastDash =>
    let low := asciiLower c
    if isAsciiAlnum low then low :: sanCore cs false
    else if (isAsciiWs low || low == '-' || low == '_') && !lastDash then
      '-' :: sanCore cs true
    else sanCore cs lastDash

/-- `out.trim_matches('-')`. -/
def trimDashes (s : Str) : Str :=
  trimRightBy (fun c => c == '-') (s.dropWhile (fun c => c == '-'))

/-- `HassUiConfig::sanitize_id`. -/
def sanitizeId (s : Str) : Str :=
  trimDashes (sanCore s false)

/-- Trim the members of a string list and drop the empties (the
`.map(trim).filter(!empty)` idiom of `HassUiConfig::normalize`). -/
def cleanStrList (l : List Str) : List Str :=
  (l.map rustTrim).filter (fun x => !x.isEmpty)

/-- Trim an optional string and drop it when empty (the
`.map(trim).filter(!empty)` idiom on `Option`). -/
def cleanOptStr (o : Option Str) : Option Str :=
  match o.map rustTrim with
  | some x => if x.isEmpty then none else some x
  | none => none

/-- The id chosen by the room loop of `HassUiConfig::normalize`: the
sanitized id, or the sanitized name when that is empty. -/
def normRoomId (room : HassRoomConfig) : Str :=
  if (sanitizeId room.id).isEmpty then sanitizeId room.name else sanitizeId room.id

/-- The room loop of `HassUiConfig::normalize`: sanitize each id (fall
back to the sanitized name), drop empty or already-seen ids, trim names
and source areas. -/
def normalizeRoomsGo (seen : List Str) : List HassRoomConfig → List HassRoomConfig
  | [] => []
  | room :: rest =>
    if (normRoomId room).isEmpty || seen.contains (normRoomId room) then
      normalizeRoomsGo seen rest
    else
      ⟨normRoomId room, rustTrim room.name, cleanOptStr room.sourceArea,
        room.autoCreated⟩ ::
        normalizeRoomsGo (normRoomId room :: seen) rest

/-- `HassUiConfig::ensure_default_room`: insert the "home-assistant"
room at the head unless a room with that id exists. -/
def ensureDefaultRoom (rooms : List HassRoomConfig) : List HassRoomConfig :=
  if rooms.any (fun r => r.id == defaultRoomId) then rooms
  else ⟨defaultRoomId, defaultRoomName, none, false⟩ :: rooms

/-- The complete room stage of `normalize`: the room loop followed by
the default-room insertion. -/
def roomsPass (rooms : List HassRoomConfig) : List HassRoomConfig :=
  ensureDefaultRoom (normalizeRoomsGo [] rooms)

/-- `entity_preferences.entry(id).or_default().visible.get_or_insert(false)`:
update the first matching entry, appending a fresh default entry when the
key is absent. -/
def setVisibleDefaultFalse (prefs : List (Str × HassEntityPreference)) (id : Str) :
    List (Str × HassEntityPreference) :=
  match prefs with
  | [] => [(id, { emptyPreference with visible := some false })]
  | (k, p) :: rest =>
    if k == id then (k, { p with visible := some (p.visible.getD false) }) :: rest
    else (k, p) :: setVisibleDefaultFalse rest id

/-- The hidden/exclude pass of `HassUiConfig::normalize`: force
`visible` to at least `Some(false)` for every listed entity. -/
def forceHiddenVisible (prefs : List (Str × HassEntityPreference)) (ids : List Str) :
    List (Str × HassEntityPreference) :=
  ids.foldl setVisibleDefaultFalse prefs

/-- The per-preference rewrite done inside the `entity_preferences.retain`
closure of `HassUiConfig::normalize`: clear a room id that is not a known
room, then trim the alias. -/
def retainTransform (roomIds : List Str) (p : HassEntityPreference) :
    HassEntityPreference :=
  let p1 :=
    match p.roomId with
    | some rid => if roomIds.contains rid then p else { p with roomId := none }
    | none => p
  { p1 with aliasName := cleanOptStr p1.aliasName }

/-- The retain condition: the preference carries at least one datum. -/
def prefHasData (p : HassEntityPreference) : Bool :=
  p.visible.isSome || p.roomId.isSome || p.aliasName.isSome || p.sensorKind.isSome
    || p.sensorEnabled.isSome || p.switchMode.isSome || p.lightArchetype.isSome

/-- The `entity_preferences.retain` pass of `HassUiConfig::normalize`:
drop blank keys, clear unknown room ids, trim aliases, and drop
preferences carrying no data. -/
def retainPrefs (roomIds : List Str) (prefs : List (Str × HassEntityPreference)) :
    List (Str × HassEntityPreference) :=
  prefs.filterMap (fun kp =>
    if (rustTrim kp.1).isEmpty then none
    else if prefHasData (retainTransform roomIds kp.2) then
      some (kp.1, retainTransform roomIds kp.2)
    else none)

/-- `HassUiConfig::normalize` (from `src/model/hass.rs`): clean the four
string lists and the three optional strings, run the room pass with the
default-room insertion, force `visible` for hidden/excluded entities, and
run the preference retain pass against the normalized room ids. -/
def HassUiConfig.normalize (c : HassUiConfig) : HassUiConfig :=
  { c with
    hiddenEntityIds := cleanStrList c.hiddenEntityIds
    excludeEntityIds := cleanStrList c.excludeEntityIds
    excludeNamePatterns := cleanStrList c.excludeNamePatterns
    ignoredAreaNames := cleanStrList c.ignoredAreaNames
    hassTimezone := cleanOptStr c.hassTimezone
    hassLat := cleanOptStr c.hassLat
    hassLong := cleanOptStr c.hassLong
    rooms := roomsPass c.rooms
    entityPreferences :=
      retainPrefs ((roomsPass c.rooms).map (fun r => r.id))
        (forceHiddenVisible c.entityPreferences
          (cleanStrList c.hiddenEntityIds ++ cleanStrList c.excludeEntityIds)) }

/-- Preference lookup (`entity_preferences.get(entity_id)`). -/
def prefFor (c : HassUiConfig) (id : Str) : Option HassEntityPreference :=
  (c.entityPreferences.find? (fun p => p.1 == id)).map (·.2)

/-- `HassUiConfig::is_manually_hidden`. -/
def isManuallyHidden (c : HassUiConfig) (entityId : Str) : Bool :=
  ((prefFor c entityId).bind (·.visible) == some false)
  || c.hiddenEntityIds.any (fun x => eqIgnoreAsciiCase x entityId)
  || c.excludeEntityIds.any (fun x => eqIgnoreAsciiCase x entityId)

/-- `HassUiConfig::should_include` (from `src/model/hass.rs`). -/
def HassUiConfig.shouldInclude (c : HassUiConfig) (entityId displayName : Str)
    (available : Bool) : Bool :=
  if !c.includeUnavailable && !available then false
  else
    let idLc := entityId.map asciiLower
    let nameLc := displayName.map asciiLower
    match (prefFor c entityId).bind (·.visible) with
    | some visible => visible
    | none =>
      if isManuallyHidden c entityId then false
      else if c.excludeNamePatterns.any (fun x =>
          if x.isEmpty then false
          else
            let pat := x.map asciiLower
            containsSub idLc pat || containsSub nameLc pat) then false
      else c.defaultAddNewDevicesToHue

/-! ## Patina (from `src/model/hass.rs`, `HassUiState::patina_public`) -/

/-- `HassPatinaStage`. -/
inductive HassPatinaStage where
  | Fresh | Used | Loved
  deriving DecidableEq, Repr

/-- The patina level computed by `HassUiState::patina_public` as a
function of the (non-negative) day count since install and the
interaction count. Divisions are Rust's truncating integer divisions;
`u8::try_from(..).unwrap_or(..)` never takes its fallback because both
components are bounded (by 20 resp. 80); `saturating_add` on `u8` is
mirrored by the inner `min _ 255`. -/
def patinaLevel (days count : Nat) : Nat :=
  let d := min days 365
  let ageComponent := d * 20 / 365
  let interactionComponent := min count 5000 * 80 / 5000
  min (min (ageComponent + interactionComponent) 255) 100

/-- The stage thresholds of `HassUiState::patina_public`. -/
def patinaStage (level : Nat) : HassPatinaStage :=
  if level ≥ 71 then .Loved
  else if level ≥ 26 then .Used
  else .Fresh

/-! ## HA runtime configuration (from `src/model/hass.rs`) -/

/-- `HassRuntimeConfig`. -/
structure HassRuntimeConfig where
  enabled : Bool
  url : Str
  syncMode : Str
  token : Option Str
  deriving DecidableEq, Repr

/-- `HassRuntimeConfigPublic`. -/
structure HassRuntimeConfigPublic where
  enabled : Bool
  url : Str
  syncMode : Str
  tokenPresent : Bool
  deriving DecidableEq, Repr

/-- `HassRuntimeState::public_config` (from `src/model/hass.rs`): same
fields, with the token replaced by
`token.as_ref().is_some_and(|x| !x.trim().is_empty())`. -/
def publicConfig (c : HassRuntimeConfig) : HassRuntimeConfigPublic :=
  { enabled := c.enabled
    url := c.url
    syncMode := c.syncMode
    tokenPresent :=
      match c.token with
      | some t => !(rustTrim t).isEmpty
      | none => false }

/-! ## HA light capabilities (from `src/backend/hass/`) -/

/-- `HassLightCapabilities` (from `src/backend/hass/mod.rs`). -/
structure HassLightCapabilities where
  supportsBrightness : Bool
  supportsColor : Bool
  supportsColorTemp : Bool
  deriving DecidableEq, Repr

/-- `HassLightCapabilities::default()`: all flags false. -/
def capsDefault : HassLightCapabilities := ⟨false, false, false⟩

/-- `HassEntityKind` (from `src/backend/hass/mod.rs`). -/
inductive HassEntityKind where
  | Light | Switch | BinarySensor
  deriving DecidableEq, Repr

/-- The capability-preservation step of `HassBackend::handle_state_update`
(from `src/backend/hass/import.rs`): for a light whose parsed realtime
capabilities equal the all-false default, keep the previously stored
capabilities when the entity is known; the value returned here is what
`sync_single_entity` then stores as the entity binding's capabilities. -/
def mergeRealtimeCapabilities (kind : HassEntityKind) (caps : HassLightCapabilities)
    (existing : Option HassLightCapabilities) : HassLightCapabilities :=
  if kind == .Light && caps == capsDefault then
    match existing with
    | some e => e
    | none => caps
  else caps

/-- Pointwise order on capability triples (`a` below `b` under boolean
implication, i.e. `b` equals the pointwise OR of `a` and `b`). -/
def capsLe (a b : HassLightCapabilities) : Bool :=
  (!a.supportsBrightness || b.supportsBrightness)
  && (!a.supportsColor || b.supportsColor)
  && (!a.supportsColorTemp || b.supportsColorTemp)

/-! ## Hue light updates and their backend translations
(from `src/backend/z2m/backend_event.rs` and
`src/backend/hass/backend_event.rs`) -/

/-- `On`. -/
structure On where
  isOn : Bool
  deriving DecidableEq, Repr

/-- `DimmingUpdate` (brightness in percent, `f64` modelled as `ℚ`). -/
structure DimmingUpdate where
  brightness : ℚ
  deriving DecidableEq, Repr

/-- An xy chromaticity pair (`f64` modelled as `ℚ`). -/
structure XY where
  x : ℚ
  y : ℚ
  deriving DecidableEq, Repr

/-- `ColorUpdate`. -/
structure ColorUpdate where
  xy : XY
  deriving DecidableEq, Repr

/-- `ColorTemperatureUpdate`. -/
structure ColorTemperatureUpdate where
  mirek : Option Nat
  deriving DecidableEq, Repr

/-- `DynamicsUpdate` (duration in milliseconds). -/
structure DynamicsUpdate where
  duration : Option Nat
  deriving DecidableEq, Repr

/-- `LightGradientMode`. -/
inductive LightGradientMode where
  | InterpolatedPalette | InterpolatedPaletteMirrored | RandomPixelated
  deriving DecidableEq, Repr

/-- A gradient update: mode and color points. -/
structure GradientUpdate where
  mode : Option LightGradientMode
  points : List XY
  deriving DecidableEq, Repr

/-- `LightUpdate`, restricted to the fields read by the two backend
light-update translations. -/
structure LightUpdate where
  onSet : Option On
  dimming : Option DimmingUpdate
  color : Option ColorUpdate
  colorTemperature : Option ColorTemperatureUpdate
  dynamics : Option DynamicsUpdate
  gradient : Option GradientUpdate
  identify : Option Unit
  deriving DecidableEq, Repr

/-- The all-`none` light update (`LightUpdate::default()`). -/
def emptyLightUpdate : LightUpdate :=
  ⟨none, none, none, none, none, none, none⟩

/-- `z2m::update::DeviceEffect` (the variants used here). -/
inductive DeviceEffect where
  | Breathe | FinishEffect
  deriving DecidableEq, Repr

/-- The generic z2m `DeviceUpdate` payload, restricted to the fields set
by `Z2mBackend::backend_light_update` (brightness on the 0–254 scale,
transition in seconds). -/
structure DeviceUpdate where
  state : Option Bool
  brightness : Option ℚ
  colorTemp : Option Nat
  colorXY : Option XY
  transition : Option ℚ
  gradient : Option GradientUpdate
  effect : Option DeviceEffect
  deriving DecidableEq, Repr

/-- The `transition` computation of `Z2mBackend::backend_light_update`
(from `src/backend/z2m/backend_event.rs`): `dynamics.duration` in
seconds when present, else 0.4 s when dimming, color temperature or
color is set, else absent. -/
def z2mTransition (upd : LightUpdate) : Option ℚ :=
  match upd.dynamics.bind (fun d => d.duration) with
  | some duration => some ((duration : ℚ) / 1000)
  | none =>
    if upd.dimming.isSome || upd.colorTemperature.isSome || upd.color.isSome then
      some (2 / 5)
    else none

/-- The generic device-update payload built by step 1 of
`Z2mBackend::backend_light_update` (from
`src/backend/z2m/backend_event.rs`). `hueEffects` tells whether the
light supports Hue-proprietary effects (in which case the gradient is
not sent in the generic payload), and the breathe effect is attached on
an identify request. -/
def z2mLightUpdatePayload (upd : LightUpdate) (hueEffects : Bool) : DeviceUpdate :=
  let payload : DeviceUpdate :=
    { state := upd.onSet.map (fun o => o.isOn)
      brightness := upd.dimming.map (fun dim => dim.brightness / 100 * 254)
      colorTemp := upd.colorTemperature.bind (fun ct => ct.mirek)
      colorXY := upd.color.map (fun col => col.xy)
      transition := z2mTransition upd
      gradient := none
      effect := none }
  let payload := if !hueEffects then { payload with gradient := upd.gradient } else payload
  if upd.identify.isSome then { payload with effect := some .Breathe } else payload

/-- A JSON value in a Home Assistant service-call data map. -/
inductive JsonVal where
  | natVal (n : Nat)
  | ratVal (q : ℚ)
  | xyVal (x y : ℚ)
  deriving DecidableEq, Repr

/-- One Home Assistant service call: domain, service, target entity and
data map. -/
structure ServiceCall where
  domain : String
  service : String
  entityId : String
  data : List (String × JsonVal)
  deriving DecidableEq, Repr

/-- `f64::round` (round half away from zero) on rationals. -/
def rustRound (q : ℚ) : ℤ :=
  if q ≥ 0 then ⌊q + 1 / 2⌋ else ⌈q - 1 / 2⌉

/-- The brightness sent by `HassBackend::backend_light_update`:
`(dim.brightness * 255 / 100).round().clamp(0, 255)` printed with no
decimals, parsed back as an integer and capped at 255. -/
def hassBrightness (b : ℚ) : Nat :=
  (min 255 (max 0 (rustRound (b * 255 / 100)))).toNat

/-- The binding data used by `HassBackend::backend_light_update`:
entity kind, HA entity id and stored capabilities
(from `src/backend/hass/mod.rs`, `HassEntityBinding`). -/
structure HassBindingModel where
  kind : HassEntityKind
  entityId : String
  capabilities : HassLightCapabilities
  deriving DecidableEq, Repr

/-- `HassBackend::backend_light_update` (from
`src/backend/hass/backend_event.rs`) as the list of service calls it
issues, in order. For a light: `light.turn_off` with an empty data map
short-circuits when `on = Some(false)`; otherwise the data map collects
brightness, color temperature, color and transition, and `light.turn_on`
is called when the update asks for on or the map is non-empty. Switches
map `on` to `switch.turn_on` / `switch.turn_off`; binary sensors get no
call. -/
def hassBackendLightUpdate (binding : HassBindingModel) (upd : LightUpdate) :
    List ServiceCall :=
  match binding.kind with
  | .Light =>
    if upd.onSet.any (fun o => !o.isOn) then
      [⟨"light", "turn_off", binding.entityId, []⟩]
    else
      let data : List (String × JsonVal) := []
      let data := data ++
        (if binding.capabilities.supportsBrightness then
          match upd.dimming with
          | some dim => [("brightness", JsonVal.natVal (hassBrightness dim.brightness))]
          | none => []
        else [])
      let data := data ++
        (if binding.capabilities.supportsColorTemp then
          match upd.colorTemperature.bind (fun ct => ct.mirek) with
          | some ct => [("color_temp", JsonVal.natVal ct)]
          | none => []
        else [])
      let data := data ++
        (if binding.capabilities.supportsColor then
          match upd.color with
          | some color => [("xy_color", JsonVal.xyVal color.xy.x color.xy.y)]
          | none => []
        else [])
      let data := data ++
        (match upd.dynamics.bind (fun d => d.duration) with
        | some durationMs => [("transition", JsonVal.ratVal ((durationMs : ℚ) / 1000))]
        | none => [])
      if upd.onSet.any (fun o => o.isOn) || !data.isEmpty then
        [⟨"light", "turn_on", binding.entityId, data⟩]
      else []
  | .Switch =>
    match upd.onSet with
    | some o =>
      [⟨"switch", if o.isOn then "turn_on" else "turn_off", binding.entityId, []⟩]
    | none => []
  | .BinarySensor => []

/-! ## Claim C3: deterministic identity derivation -/

set_option maxRecDepth 100000 in
/-- C3: deterministic ID derivation is the UUIDv5 over the concatenated
little-endian SipHash-1-3 of the fixed tag index and of the key; on key
"foo" the Room, AuthV1, Device, Light, GroupedLight, Scene and Zone tags
yield exactly the pinned UUIDs. -/
theorem deterministic_ids_for_foo :
    (RType.Room.deterministic "foo").rid = 0x035856777f505379b7a68c4d70d63c67 ∧
    (RType.AuthV1.deterministic "foo").rid = 0x9c9dc59412c45db8bc013bd26c09cf0f ∧
    (RType.Device.deterministic "foo").rid = 0xfa83ad4cfbd8519cb543d7aaf2041c75 ∧
    (RType.Light.deterministic "foo").rid = 0x020d528953f85051ac977ea60043223e ∧
    (RType.GroupedLight.deterministic "foo").rid = 0xb2126c4a16e359f4b11f4c674c9130f5 ∧
    (RType.Scene.deterministic "foo").rid = 0x02808610c1ec57748eaf453b83cf1981 ∧
    (RType.Zone.deterministic "foo").rid = 0x1cc85d967bb65e75938cdf4207136480 := by
  refine ⟨?_, ?_, ?_, ?_, ?_, ?_, ?_⟩ <;> rfl

/-! ## Claim C4: capability non-regression on realtime updates -/

/-- C4 (counterexample): a realtime payload whose capability triple is
not the all-false default replaces the stored triple even when that is a
downgrade — here a known light with all three capabilities receives a
brightness-only payload and loses color and color temperature. -/
theorem capability_downgrade_cex :
    capsLe ⟨true, true, true⟩
      (mergeRealtimeCapabilities .Light ⟨true, false, false⟩ (some ⟨true, true, true⟩))
      = false := by decide

/-- C4 (amended): when the realtime payload for a previously-imported
light reports the empty-default capability triple, the previously stored
triple is kept, so the stored triple after the update is pointwise above
the prior one. -/
theorem capability_no_downgrade_on_sparse (caps prior : HassLightCapabilities)
    (hsparse : caps = capsDefault) :
    mergeRealtimeCapabilities .Light caps (some prior) = prior ∧
    capsLe prior (mergeRealtimeCapabilities .Light caps (some prior)) = true := by
  subst hsparse
  refine ⟨rfl, ?_⟩
  obtain ⟨a, b, c⟩ := prior
  cases a <;> cases b <;> cases c <;> rfl

/-- C4 (witness). -/
theorem capability_no_downgrade_on_sparse_witness :
    mergeRealtimeCapabilities .Light capsDefault (some ⟨true, true, false⟩)
      = ⟨true, true, false⟩ :=
  (capability_no_downgrade_on_sparse capsDefault ⟨true, true, false⟩ rfl).1

/-! ## Claim C5: the patina level -/

/-- C5 (counterexample): at 30 days since install and 1000 interactions
the level is 17, not the 18 the claim computes with rounding — the code
divides with truncation, so the age component of 30 days is
`600 / 365 = 1`, not 2. -/
theorem patina_example_cex :
    patinaLevel 30 1000 = 17 ∧ ¬ patinaLevel 30 1000 = 18 := by decide

/-- C5 (amended): the patina level is
`min 100 (floor(min 365 days * 20 / 365) + min 80 (floor(count * 80 / 5000)))`
with truncating division; at 30 days and 1000 interactions the level is
`1 + 16 = 17` and the stage is Fresh. -/
theorem patinaLevel_floor_formula (days count : Nat) :
    patinaLevel days count
      = min 100 (min 365 days * 20 / 365 + min 80 (count * 80 / 5000)) ∧
    patinaLevel 30 1000 = 17 ∧ patinaStage (patinaLevel 30 1000) = .Fresh := by
  refine ⟨?_, by decide, by decide⟩
  have hinter : min count 5000 * 80 / 5000 = min 80 (count * 80 / 5000) := by
    rcases Nat.le_total count 5000 with h | h
    · rw [Nat.min_eq_left h, Nat.min_eq_right]
      have : count * 80 ≤ 400000 := by omega
      calc count * 80 / 5000 ≤ 400000 / 5000 := Nat.div_le_div_right this
        _ = 80 := by norm_num
    · have h80 : 80 ≤ count * 80 / 5000 := by
        rw [Nat.le_div_iff_mul_le (by norm_num : 0 < 5000)]
        omega
      rw [Nat.min_eq_right h, Nat.min_eq_left h80]
  simp only [patinaLevel, hinter, Nat.min_comm days 365]
  generalize min 365 days * 20 / 365 = a
  generalize min 80 (count * 80 / 5000) = b
  omega

/-! ## Claim C6: z2m transition and brightness derivation -/

/-- The generic z2m payload carries exactly the computed transition
(the later gradient/effect updates do not touch it). -/
theorem z2mLightUpdatePayload_transition (upd : LightUpdate) (hueEffects : Bool) :
    (z2mLightUpdatePayload upd hueEffects).transition = z2mTransition upd := by
  simp only [z2mLightUpdatePayload]
  split <;> split <;> rfl

/-- The generic z2m payload carries exactly the converted brightness. -/
theorem z2mLightUpdatePayload_brightness (upd : LightUpdate) (hueEffects : Bool) :
    (z2mLightUpdatePayload upd hueEffects).brightness
      = upd.dimming.map (fun dim => dim.brightness / 100 * 254) := by
  simp only [z2mLightUpdatePayload]
  split <;> split <;> rfl

/-- C6 (counterexample): an update that only sets `on` does not get the
0.4 s default transition — the fallback fires only for dimming, color or
color temperature. -/
theorem z2m_transition_on_only_cex :
    ({ emptyLightUpdate with onSet := some ⟨true⟩ } : LightUpdate).onSet.isSome = true ∧
    (z2mLightUpdatePayload { emptyLightUpdate with onSet := some ⟨true⟩ } false).transition
      = none ∧
    ¬ (z2mLightUpdatePayload { emptyLightUpdate with onSet := some ⟨true⟩ } false).transition
      = some (2 / 5) := by
  refine ⟨rfl, rfl, by decide⟩

/-- C6 (amended): the transition of the generic device-update equals
`dynamics.duration` in seconds when that duration is present, and
otherwise 0.4 s exactly when any of the dimming, color or
color-temperature fields is set (an `on`-only update gets no default
transition); brightness is converted from the 0–100 scale by
`b / 100 * 254`. -/
theorem z2m_light_update_translation (upd : LightUpdate) (hueEffects : Bool) :
    (∀ d, upd.dynamics.bind (fun dyn => dyn.duration) = some d →
      (z2mLightUpdatePayload upd hueEffects).transition = some ((d : ℚ) / 1000)) ∧
    (upd.dynamics.bind (fun dyn => dyn.duration) = none →
      (z2mLightUpdatePayload upd hueEffects).transition
        = (if upd.dimming.isSome || upd.colorTemperature.isSome || upd.color.isSome
           then some (2 / 5) else none)) ∧
    (∀ b, upd.dimming = some ⟨b⟩ →
      (z2mLightUpdatePayload upd hueEffects).brightness = some (b / 100 * 254)) := by
  refine ⟨?_, ?_, ?_⟩
  · intro d hd
    rw [z2mLightUpdatePayload_transition]
    simp [z2mTransition, hd]
  · intro hd
    rw [z2mLightUpdatePayload_transition]
    simp [z2mTransition, hd]
  · intro b hb
    rw [z2mLightUpdatePayload_brightness, hb]
    rfl

/-- C6 (witness). -/
theorem z2m_light_update_translation_witness :
    (z2mLightUpdatePayload
        { emptyLightUpdate with dynamics := some ⟨some 2000⟩ } true).transition
      = some ((2000 : ℚ) / 1000) :=
  (z2m_light_update_translation { emptyLightUpdate with dynamics := some ⟨some 2000⟩ }
    true).1 2000 rfl

/-! ## Claim C9: HA light turn-off short-circuit -/

/-- C9: for a light-kind binding, an update with `on = {on: false}`
yields exactly one `light.turn_off` call with an empty data map, and in
particular no `light.turn_on` call. -/
theorem hass_light_turn_off (binding : HassBindingModel) (upd : LightUpdate)
    (hkind : binding.kind = .Light) (hoff : upd.onSet = some ⟨false⟩) :
    hassBackendLightUpdate binding upd
      = [⟨"light", "turn_off", binding.entityId, []⟩] := by
  simp [hassBackendLightUpdate, hkind, hoff]

/-- C9 (witness). -/
theorem hass_light_turn_off_witness :
    hassBackendLightUpdate ⟨.Light, "light.kitchen", ⟨true, true, true⟩⟩
        { emptyLightUpdate with onSet := some ⟨false⟩ }
      = [⟨"light", "turn_off", "light.kitchen", []⟩] :=
  hass_light_turn_off ⟨.Light, "light.kitchen", ⟨true, true, true⟩⟩
    { emptyLightUpdate with onSet := some ⟨false⟩ } rfl rfl

/-! ## Claim C7: per-entity visibility precedence -/

/-- A concrete configuration whose only content is a per-entity
`visible = Some(true)` preference, with `include_unavailable` cleared. -/
def cex7Config : HassUiConfig :=
  { hiddenEntityIds := []
    excludeEntityIds := []
    excludeNamePatterns := []
    includeUnavailable := false
    rooms := []
    entityPreferences := [("light.x".data, { emptyPreference with visible := some true })]
    ignoredAreaNames := []
    defaultAddNewDevicesToHue := false
    syncHassAreasToRooms := true
    fakeCloudMode := .Off
    fakeCloudCustom := ⟨false, false, false, false, .Disconnected, .Disconnected, false, true, .None⟩
    hassTimezone := none
    hassLat := none
    hassLong := none }

/-- C7 (counterexample): with `include_unavailable = false` an
unavailable entity is excluded even though its preference says
`visible = Some(true)` — the availability check precedes the
preference. -/
theorem should_include_visible_cex :
    (prefFor cex7Config "light.x".data).bind (fun p => p.visible) = some true ∧
    cex7Config.shouldInclude "light.x".data "X".data false = false := by
  refine ⟨rfl, rfl⟩

/-- C7 (amended): when the entity is available or unavailable entities
are kept, a set per-entity `visible` preference decides `should_include`
outright, whatever the hidden/exclude lists, the name patterns and the
default-add flag say. -/
theorem should_include_visible_precedence (c : HassUiConfig)
    (entityId displayName : Str) (available v : Bool)
    (hv : (prefFor c entityId).bind (fun p => p.visible) = some v)
    (havail : (available || c.includeUnavailable) = true) :
    c.shouldInclude entityId displayName available = v := by
  simp only [HassUiConfig.shouldInclude, hv]
  cases available <;> cases hc : c.includeUnavailable <;>
    simp_all [HassUiConfig.shouldInclude, hv]

/-- C7 (witness). -/
theorem should_include_visible_precedence_witness :
    cex7Config.shouldInclude "light.x".data "X".data true = true :=
  should_include_visible_precedence cex7Config "light.x".data "X".data true true rfl rfl

/-! ## Claim C10: the public runtime config never exposes the token -/

/-- C10: two runtime configurations differing only in the token produce
public configurations equal in every field except possibly
`token_present`, and `token_present` holds exactly when a token is
stored and non-empty after trimming. -/
theorem public_config_token_privacy :
    (∀ (c : HassRuntimeConfig) (t₁ t₂ : Option Str),
      (publicConfig { c with token := t₁ }).enabled
        = (publicConfig { c with token := t₂ }).enabled ∧
      (publicConfig { c with token := t₁ }).url
        = (publicConfig { c with token := t₂ }).url ∧
      (publicConfig { c with token := t₁ }).syncMode
        = (publicConfig { c with token := t₂ }).syncMode) ∧
    (∀ c : HassRuntimeConfig,
      (publicConfig c).tokenPresent = true ↔
        ∃ t, c.token = some t ∧ rustTrim t ≠ []) := by
  refine ⟨fun c t₁ t₂ => ⟨rfl, rfl, rfl⟩, fun c => ?_⟩
  cases h : c.token with
  | none => simp [publicConfig, h]
  | some t =>
    simp only [publicConfig, h, Bool.not_eq_true']
    constructor
    · intro he
      exact ⟨t, rfl, by simpa [List.isEmpty_iff] using he⟩
    · rintro ⟨t', ht', hne⟩
      cases ht'
      simpa [List.isEmpty_iff] using hne

/-- C10 (witness). -/
theorem public_config_token_privacy_witness :
    (publicConfig ⟨true, [], [], some " secret ".data⟩).tokenPresent = true :=
  (public_config_token_privacy.2 ⟨true, [], [], some " secret ".data⟩).mpr
    ⟨" secret ".data, rfl, by decide⟩

/-! ## Claim C2: next scene id -/

/-- A successful scan from `x` with `n` candidates returns a free value,
at least `x`, below `x + n`, with every value in between taken. -/
theorem findFree_some (taken : List Nat) :
    ∀ n x y, findFree taken x n = some y →
      y ∉ taken ∧ x ≤ y ∧ y < x + n ∧ ∀ z, x ≤ z → z < y → z ∈ taken := by
  intro n
  induction n with
  | zero => intro x y h; simp [findFree] at h
  | succ n ih =>
    intro x y h
    rw [findFree] at h
    split at h
    next hc =>
      obtain ⟨h1, h2, h3, h4⟩ := ih (x + 1) y h
      refine ⟨h1, by omega, by omega, ?_⟩
      intro z hz1 hz2
      rcases Nat.eq_or_lt_of_le hz1 with rfl | hlt
      · exact List.mem_of_elem_eq_true hc
      · exact h4 z (by omega) hz2
    next hc =>
      cases h
      exact ⟨fun hmem => hc (List.elem_eq_true_of_mem hmem), Nat.le_refl _,
        by omega, fun z hz1 hz2 => absurd (Nat.lt_of_lt_of_le hz2 hz1) (Nat.lt_irrefl z)⟩

/-- A failed scan means every candidate was taken. -/
theorem findFree_none (taken : List Nat) :
    ∀ n x, findFree taken x n = none → ∀ z, x ≤ z → z < x + n → z ∈ taken := by
  intro n
  induction n with
  | zero => intro x _ z hz1 hz2; omega
  | succ n ih =>
    intro x h z hz1 hz2
    rw [findFree] at h
    split at h
    next hc =>
      rcases Nat.eq_or_lt_of_le hz1 with rfl | hlt
      · exact List.mem_of_elem_eq_true hc
      · exact ih (x + 1) h z (by omega) (by omega)
    next hc => cases h

/-- C2: `get_next_scene_id` returns the smallest integer that is not the
AuxData index of any scene of the room, always below 100, and fails with
`Full(Scene)` exactly when the indices 0..99 are all taken; a returned
value never collides with an existing scene index of the room. -/
theorem next_scene_id_spec (s : Store) (room : ResourceLink) :
    (∀ x, getNextSceneId s room = .ok x →
      x < 100 ∧ x ∉ sceneIndices s room ∧ ∀ y, y ∉ sceneIndices s room → x ≤ y) ∧
    (getNextSceneId s room = .error (.full .Scene) ↔
      ∀ y, y < 100 → y ∈ sceneIndices s room) := by
  constructor
  · intro x hx
    rw [getNextSceneId] at hx
    cases h : findFree (sceneIndices s room) 0 100 with
    | none => rw [h] at hx; cases hx
    | some x' =>
      rw [h] at hx
      cases hx
      obtain ⟨h1, _, h3, h4⟩ := findFree_some (sceneIndices s room) 100 0 x h
      refine ⟨by omega, h1, ?_⟩
      intro y hy
      by_contra hxy
      exact hy (h4 y (Nat.zero_le y) (by omega))
  · rw [getNextSceneId]
    cases h : findFree (sceneIndices s room) 0 100 with
    | none =>
      simp only [true_iff]
      intro y hy
      exact findFree_none (sceneIndices s room) 100 0 h y (Nat.zero_le y) (by omega)
    | some x =>
      obtain ⟨h1, _, h3, _⟩ := findFree_some (sceneIndices s room) 100 0 x h
      exact ⟨fun hcontra => Except.noConfusion hcontra,
        fun hall => absurd (hall x (by omega)) h1⟩

/-- A room link and a store with two scenes of that room at indices 0
and 1, exercising the scene-id scan. -/
def demoRoomLink : ResourceLink := ⟨100, .Room⟩

/-- The store for the C2 witness. -/
def demoStoreC2 : Store :=
  { res := [(1, .scene ⟨demoRoomLink, []⟩), (2, .scene ⟨demoRoomLink, []⟩)]
    aux := [(1, ⟨some 0, none⟩), (2, ⟨some 1, none⟩)] }

/-- C2 (witness). -/
theorem next_scene_id_spec_witness :
    2 < 100 ∧ 2 ∉ sceneIndices demoStoreC2 demoRoomLink :=
  have h := (next_scene_id_spec demoStoreC2 demoRoomLink).1 2 rfl
  ⟨h.1, h.2.1⟩

/-! ## Claim C1: the delete cascade -/

/-- Child, service and location references of a resource: exactly the
reference kinds the purge pass of `Resources::delete` rewrites. -/
def cssRefB (r : Resource) (l : ResourceLink) : Bool :=
  match r with
  | .room rm => rm.children.any (fun x => x == l) || rm.services.any (fun x => x == l)
  | .zone z => z.children.any (fun x => x == l) || z.services.any (fun x => x == l)
  | .bridgeHome b => b.children.any (fun x => x == l) || b.services.any (fun x => x == l)
  | .device d => d.services.any (fun x => x == l)
  | .entertainmentConfiguration e =>
    e.serviceLocations.any (fun sl => sl.service == l)
    || e.channels.any (fun ch => ch.members.any (fun m => m.service == l))
    || e.lightServices.any (fun x => x == l)
  | _ => false

/-- Scene action-target references (not rewritten by the purge pass). -/
def actionRefB (r : Resource) (l : ResourceLink) : Bool :=
  match r with
  | .scene s => s.actions.any (fun a => a.target == l)
  | _ => false

/-- The claim's full reference notion: owner, service, child, action
target or location reference. -/
def refHoldsB (r : Resource) (l : ResourceLink) : Bool :=
  (r.owner == some l) || cssRefB r l || actionRefB r l

/-- Filtering away the elements satisfying `p` leaves none satisfying
`p`. -/
theorem any_filter_not {α : Type} (p : α → Bool) (xs : List α) :
    (xs.filter (fun x => !p x)).any p = false := by
  rw [List.any_eq_false]
  intro x hx
  have h2 := (List.mem_filter.mp hx).2
  simp only [Bool.not_eq_true'] at h2
  simp [h2]

/-- Anything satisfying `p` in a filtered list satisfied `p` in the
original. -/
theorem any_of_any_filter {α : Type} (p q : α → Bool) (xs : List α) :
    (xs.filter q).any p = true → xs.any p = true := by
  intro h
  rw [List.any_eq_true] at h ⊢
  obtain ⟨x, hx, hpx⟩ := h
  exact ⟨x, (List.mem_filter.mp hx).1, hpx⟩

/-- The purge pass removes every child/service/location reference to the
purged link. -/
theorem purge_css_clean (l : ResourceLink) (r : Resource) :
    cssRefB (purgeResource l r) l = false := by
  cases r <;>
    simp only [purgeResource, cssRefB, Bool.or_eq_false_iff] <;>
    try rfl
  case room rm =>
    constructor <;>
      simpa using any_filter_not (fun x => x == l) _
  case zone z =>
    constructor <;>
      simpa using any_filter_not (fun x => x == l) _
  case bridgeHome b =>
    constructor <;>
      simpa using any_filter_not (fun x => x == l) _
  case device d =>
    simpa using any_filter_not (fun x => x == l) _
  case entertainmentConfiguration e =>
    refine ⟨⟨?_, ?_⟩, ?_⟩
    · simpa using any_filter_not (fun sl : ECServiceLocation => sl.service == l) _
    · simpa using any_filter_not (fun ch : ECChannel => ch.members.any (fun m => m.service == l)) _
    · simpa using any_filter_not (fun x => x == l) _

/-- The purge pass does not change the owner of a resource. -/
theorem purge_owner (l : ResourceLink) (r : Resource) :
    (purgeResource l r).owner = r.owner := by
  cases r <;> rfl

/-- The purge pass does not change the type tag of a resource. -/
theorem purge_rtype (l : ResourceLink) (r : Resource) :
    (purgeResource l r).rtype = r.rtype := by
  cases r <;> rfl

/-- The purge pass only removes child/service/location references. -/
theorem purge_css_mono (l y : ResourceLink) (r : Resource) :
    cssRefB (purgeResource l r) y = true → cssRefB r y = true := by
  cases r <;> simp only [purgeResource, cssRefB] <;> intro h
  case room rm =>
    rcases Bool.or_eq_true_iff.mp h with h' | h'
    · exact Bool.or_eq_true_iff.mpr (Or.inl (any_of_any_filter _ _ _ h'))
    · exact Bool.or_eq_true_iff.mpr (Or.inr (any_of_any_filter _ _ _ h'))
  case zone z =>
    rcases Bool.or_eq_true_iff.mp h with h' | h'
    · exact Bool.or_eq_true_iff.mpr (Or.inl (any_of_any_filter _ _ _ h'))
    · exact Bool.or_eq_true_iff.mpr (Or.inr (any_of_any_filter _ _ _ h'))
  case bridgeHome b =>
    rcases Bool.or_eq_true_iff.mp h with h' | h'
    · exact Bool.or_eq_true_iff.mpr (Or.inl (any_of_any_filter _ _ _ h'))
    · exact Bool.or_eq_true_iff.mpr (Or.inr (any_of_any_filter _ _ _ h'))
  case device d =>
    exact any_of_any_filter _ _ _ h
  case entertainmentConfiguration e =>
    rcases Bool.or_eq_true_iff.mp h with h' | h'
    · rcases Bool.or_eq_true_iff.mp h' with h'' | h''
      · exact Bool.or_eq_true_iff.mpr (Or.inl (Bool.or_eq_true_iff.mpr
          (Or.inl (any_of_any_filter _ _ _ h''))))
      · exact Bool.or_eq_true_iff.mpr (Or.inl (Bool.or_eq_true_iff.mpr
          (Or.inr (any_of_any_filter _ _ _ h''))))
    · exact Bool.or_eq_true_iff.mpr (Or.inr (any_of_any_filter _ _ _ h'))
  all_goals exact h

/-- Store refinement: every resource of `t` descends from a resource of
`s` at the same id with the same owner and type and no additional
child/service/location references. -/
def Refines (t s : Store) : Prop :=
  ∀ p ∈ t.res, ∃ r0 : Resource, (p.1, r0) ∈ s.res ∧ p.2.owner = r0.owner ∧
    p.2.rtype = r0.rtype ∧ ∀ y, cssRefB p.2 y = true → cssRefB r0 y = true

theorem refines_rfl (s : Store) : Refines s s :=
  fun p hp => ⟨p.2, hp, rfl, rfl, fun _ h => h⟩

theorem refines_trans {t u s : Store} (h1 : Refines t u) (h2 : Refines u s) :
    Refines t s := by
  intro p hp
  obtain ⟨r1, hr1, ho1, ht1, hc1⟩ := h1 p hp
  obtain ⟨r2, hr2, ho2, ht2, hc2⟩ := h2 (p.1, r1) hr1
  exact ⟨r2, hr2, ho1.trans ho2, ht1.trans ht2, fun y hy => hc2 y (hc1 y hy)⟩

/-- The purged-and-removed intermediate store of one `delete` step. -/
def purgeStep (s : Store) (link : ResourceLink) : Store :=
  ⟨(s.res.map (fun p => (p.1, purgeResource link p.2))).filter
      (fun p => !(p.1 == link.rid)),
   s.aux⟩

/-- Membership in the purged store comes from membership in the original. -/
theorem purgeStep_mem {s : Store} {link : ResourceLink} {p : Nat × Resource}
    (hp : p ∈ (purgeStep s link).res) :
    p.1 ≠ link.rid ∧ ∃ r0, (p.1, r0) ∈ s.res ∧ p.2 = purgeResource link r0 := by
  simp only [purgeStep, List.mem_filter, List.mem_map] at hp
  obtain ⟨⟨q, hq, hpq⟩, hne⟩ := hp
  subst hpq
  simp only [Bool.not_eq_true', beq_eq_false_iff_ne, ne_eq] at hne
  exact ⟨hne, q.2, by simpa using hq, rfl⟩

theorem purgeStep_refines (s : Store) (link : ResourceLink) :
    Refines (purgeStep s link) s := by
  intro p hp
  obtain ⟨_, r0, hr0, hpr⟩ := purgeStep_mem hp
  exact ⟨r0, hr0, by rw [hpr]; exact purge_owner link r0,
    by rw [hpr]; exact purge_rtype link r0,
    fun y hy => purge_css_mono link y r0 (by rw [hpr] at hy; exact hy)⟩

/-- `deleteSeq` unfolded at a successful step. -/
theorem deleteSeq_cons_eq {fuel : Nat} {s : Store} {link : ResourceLink}
    {rest : List ResourceLink} {r : Resource}
    (hget : s.get link.rid = some r) :
    deleteSeq (fuel + 1) s (link :: rest)
      = deleteSeq fuel (purgeStep s link)
          ((((purgeStep s link).res.filter (fun p => p.2.owner == some link)).map
            (fun p => ResourceLink.mk p.1 p.2.rtype)) ++ rest) := by
  simp only [deleteSeq, hget, purgeStep]

/-- A successful `deleteSeq` run only ever shrinks resources, preserving
ids, owners and type tags. -/
theorem deleteSeq_refines :
    ∀ (fuel : Nat) (s : Store) (ls : List ResourceLink) (t : Store),
      deleteSeq fuel s ls = some t → Refines t s := by
  intro fuel
  induction fuel with
  | zero =>
    intro s ls t h
    cases ls with
    | nil => cases h; exact refines_rfl _
    | cons l rest => cases h
  | succ fuel ih =>
    intro s ls t h
    cases ls with
    | nil => cases h; exact refines_rfl _
    | cons link rest =>
      rw [deleteSeq] at h
      cases hget : s.get link.rid with
      | none => rw [hget] at h; cases h
      | some r =>
        rw [hget] at h
        exact refines_trans (ih _ _ _ h) (purgeStep_refines s link)

/-- Resources of the purged store owned by the deleted link are queued
for cascade deletion. -/
theorem purgeStep_owned_queued {s : Store} {link : ResourceLink}
    {p : Nat × Resource} (hp : p ∈ (purgeStep s link).res)
    (how : p.2.owner = some link) :
    ResourceLink.mk p.1 p.2.rtype ∈
      ((purgeStep s link).res.filter (fun p => p.2.owner == some link)).map
        (fun p => ResourceLink.mk p.1 p.2.rtype) := by
  exact List.mem_map.mpr ⟨p, List.mem_filter.mpr ⟨hp, by simp [how]⟩, rfl⟩

/-- The cascade invariant: a successful `deleteSeq` removes every link
of the work list, leaves no child/service/location reference to any of
them, and leaves no resource owned by any of them. -/
theorem deleteSeq_cascade :
    ∀ (fuel : Nat) (s : Store) (ls : List ResourceLink) (t : Store),
      deleteSeq fuel s ls = some t →
      ∀ l ∈ ls, ∀ p ∈ t.res,
        p.1 ≠ l.rid ∧ cssRefB p.2 l = false ∧ p.2.owner ≠ some l := by
  intro fuel
  induction fuel with
  | zero =>
    intro s ls t h l hl
    cases ls with
    | nil => cases hl
    | cons a rest => cases h
  | succ fuel ih =>
    intro s ls t h l hl
    cases ls with
    | nil => cases hl
    | cons link rest =>
      rw [deleteSeq] at h
      cases hget : s.get link.rid with
      | none => rw [hget] at h; cases h
      | some r =>
        rw [hget] at h
        have href : Refines t (purgeStep s link) := deleteSeq_refines _ _ _ _ h
        rcases List.mem_cons.mp hl with rfl | hrest
        · -- the head link itself
          intro p hp
          obtain ⟨r0, hr0, ho, _, hcss⟩ := href p hp
          have hmem := purgeStep_mem hr0
          obtain ⟨hne', q0, _, hq0⟩ := hmem
          have hne : p.1 ≠ l.rid := hne'
          have hq0' : r0 = purgeResource l q0 := hq0
          refine ⟨hne, ?_, ?_⟩
          · by_contra hcontra
            rw [Bool.not_eq_false] at hcontra
            have hup := hcss l hcontra
            rw [hq0', purge_css_clean l q0] at hup
            cases hup
          · intro how
            have hq : ResourceLink.mk p.1 r0.rtype ∈
                ((purgeStep s l).res.filter (fun p => p.2.owner == some l)).map
                  (fun p => ResourceLink.mk p.1 p.2.rtype) :=
              purgeStep_owned_queued hr0 (by rw [← ho]; exact how)
            have hq' := ih _ _ _ h (ResourceLink.mk p.1 r0.rtype)
              (List.mem_append.mpr (Or.inl hq)) p hp
            exact hq'.1 rfl
        · -- a link of the tail
          exact ih _ _ _ h l (List.mem_append.mpr (Or.inr hrest))

/-- C1 (amended): after a successful `delete(L)`, the store no longer
contains `L`, no remaining resource holds a child, service or location
reference to `L`, and no remaining resource is owned by `L` (every
resource whose owner was `L` has been deleted, recursively). Scene
action targets are not purged and may keep dangling references, see the
counterexample. -/
theorem delete_cascade_no_dangling (s : Store) (l : ResourceLink) (t : Store)
    (h : s.delete l = some t) :
    ∀ p ∈ t.res, p.1 ≠ l.rid ∧ cssRefB p.2 l = false ∧ p.2.owner ≠ some l :=
  deleteSeq_cascade s.res.length s [l] t h l (List.mem_singleton.mpr rfl)

/-- The links of the C1 counterexample. -/
def cexLightLink : ResourceLink := ⟨1, .Light⟩

/-- The device link of the C1 counterexample. -/
def cexDeviceLink : ResourceLink := ⟨2, .Device⟩

/-- The room link of the C1 counterexample. -/
def cexRoomLink : ResourceLink := ⟨3, .Room⟩

/-- A store with a device owning a light, a room containing the device,
and a scene of that room with an action targeting the light. -/
def cexStoreC1 : Store :=
  { res := [(2, .device ⟨[cexLightLink]⟩),
            (1, .light ⟨cexDeviceLink⟩),
            (3, .room ⟨[cexDeviceLink], []⟩),
            (4, .scene ⟨cexRoomLink, [⟨cexLightLink⟩]⟩)]
    aux := [] }

/-- C1 (counterexample): deleting the light succeeds, yet the scene
still holds the light as an action target — a resource reference to the
deleted link survives, refuting the claim that no remaining resource
holds any reference (owner, service, child, action target or location)
to the deleted link. -/
theorem delete_scene_target_dangles :
    (cexStoreC1.delete cexLightLink).map
        (fun t => t.res.any (fun p => refHoldsB p.2 cexLightLink))
      = some true := by decide

/-- The store left by the C1 counterexample deletion. -/
def cexDeletedC1 : Store :=
  { res := [(2, .device ⟨[]⟩),
            (3, .room ⟨[cexDeviceLink], []⟩),
            (4, .scene ⟨cexRoomLink, [⟨cexLightLink⟩]⟩)]
    aux := [] }

/-- C1 (witness). -/
theorem delete_cascade_no_dangling_witness :
    (4 : Nat) ≠ cexLightLink.rid ∧
    cssRefB (.scene ⟨cexRoomLink, [⟨cexLightLink⟩]⟩) cexLightLink = false ∧
    (Resource.scene ⟨cexRoomLink, [⟨cexLightLink⟩]⟩).owner ≠ some cexLightLink :=
  delete_cascade_no_dangling cexStoreC1 cexLightLink cexDeletedC1 (by decide)
    (4, .scene ⟨cexRoomLink, [⟨cexLightLink⟩]⟩) (by decide)

/-! ## Claim C8: normalization idempotence

The proof characterizes the image of each normalization pass and shows
each pass is the identity on its own image. -/

section TrimLemmas

variable (p : Char → Bool)

theorem dropWhile_dropWhile (l : Str) :
    (l.dropWhile p).dropWhile p = l.dropWhile p := by
  induction l with
  | nil => rfl
  | cons c rest ih =>
    by_cases h : p c = true
    · simp [List.dropWhile_cons, h, ih]
    · simp [List.dropWhile_cons, h]

theorem trimRightBy_idem (l : Str) :
    trimRightBy p (trimRightBy p l) = trimRightBy p l := by
  induction l with
  | nil => rfl
  | cons c rest ih =>
    cases htr : trimRightBy p rest with
    | nil =>
      by_cases h : p c = true
      · simp [trimRightBy, htr, h]
      · simp [trimRightBy, htr, h]
    | cons d ds =>
      have ih' : trimRightBy p (d :: ds) = d :: ds := by rw [← htr]; exact ih
      rw [trimRightBy, htr]
      simp only [List.isEmpty_cons, Bool.false_eq_true, if_false]
      rw [trimRightBy, ih']
      simp

theorem dropWhile_trimRightBy_of_head (l : Str)
    (h : l.dropWhile p = l) :
    (trimRightBy p l).dropWhile p = trimRightBy p l := by
  cases l with
  | nil => rfl
  | cons c rest =>
    have hc : p c = false := by
      by_contra hcc
      rw [Bool.not_eq_false] at hcc
      rw [List.dropWhile_cons, if_pos hcc] at h
      have hlen := (List.dropWhile_sublist (l := rest) p).length_le
      rw [h] at hlen
      simp at hlen
    cases htr : trimRightBy p rest with
    | nil => simp [trimRightBy, htr, hc, List.dropWhile_cons]
    | cons d ds => simp [trimRightBy, htr, hc, List.dropWhile_cons]

theorem rustTrim_idem (s : Str) : rustTrim (rustTrim s) = rustTrim s := by
  show trimRightBy _ ((trimRightBy _ (s.dropWhile _)).dropWhile _) = _
  rw [dropWhile_trimRightBy_of_head _ _ (dropWhile_dropWhile _ s)]
  exact trimRightBy_idem _ _

end TrimLemmas

theorem map_eq_self_of_mem {α : Type} (f : α → α) (l : List α)
    (h : ∀ x ∈ l, f x = x) : l.map f = l := by
  induction l with
  | nil => rfl
  | cons a t ih =>
    rw [List.map_cons, h a (List.mem_cons_self a t),
      ih (fun x hx => h x (List.mem_cons_of_mem a hx))]

theorem mem_cleanStrList {l : List Str} {y : Str} (hy : y ∈ cleanStrList l) :
    rustTrim y = y ∧ y.isEmpty = false := by
  obtain ⟨hmap, hne⟩ := List.mem_filter.mp hy
  obtain ⟨x, _, rfl⟩ := List.mem_map.mp hmap
  exact ⟨rustTrim_idem x, by simpa using hne⟩

theorem cleanStrList_idem (l : List Str) :
    cleanStrList (cleanStrList l) = cleanStrList l := by
  show ((cleanStrList l).map rustTrim).filter (fun x => !x.isEmpty) = cleanStrList l
  rw [map_eq_self_of_mem _ _ (fun x hx => (mem_cleanStrList hx).1)]
  exact List.filter_eq_self.mpr (fun x hx => by simp [(mem_cleanStrList hx).2])

theorem cleanOptStr_idem (o : Option Str) :
    cleanOptStr (cleanOptStr o) = cleanOptStr o := by
  cases o with
  | none => rfl
  | some s =>
    show cleanOptStr (cleanOptStr (some s)) = cleanOptStr (some s)
    by_cases h : (rustTrim s).isEmpty = true
    · simp [cleanOptStr, h]
    · simp only [Bool.not_eq_true] at h
      simp [cleanOptStr, h, rustTrim_idem]

/-! ### The sanitizer's image and fixpoint -/

/-- Split a boolean conjunction. -/
theorem bandMp {a b : Bool} (h : (a && b) = true) : a = true ∧ b = true := by
  cases a <;> cases b <;> simp_all

/-- Build a boolean conjunction. -/
theorem bandMpr {a b : Bool} (h1 : a = true) (h2 : b = true) : (a && b) = true := by
  rw [h1, h2]; rfl

/-- The alphabet of `sanitize_id` output: lowercase ASCII alphanumerics
and the dash. -/
def isLowerAlnumDash (c : Char) : Bool :=
  (97 ≤ c.toNat && c.toNat ≤ 122) || (48 ≤ c.toNat && c.toNat ≤ 57) || c == '-'

/-- No two adjacent dashes. -/
def noDoubleDash : Str → Bool
  | [] => true
  | [_] => true
  | a :: b :: rest => !(a == '-' && b == '-') && noDoubleDash (b :: rest)

theorem char_ofNat_toNat {n : Nat} (h : n < 55296) : (Char.ofNat n).toNat = n := by
  unfold Char.ofNat
  split
  · rfl
  · next hc => exact absurd (Or.inl h) hc

theorem asciiLower_eq_self {c : Char} (h : ¬(65 ≤ c.toNat ∧ c.toNat ≤ 90)) :
    asciiLower c = c := by
  unfold asciiLower
  rw [if_neg]
  simpa using h

theorem asciiLower_no_upper (c : Char) :
    ¬(65 ≤ (asciiLower c).toNat ∧ (asciiLower c).toNat ≤ 90) := by
  unfold asciiLower
  by_cases h : (65 ≤ c.toNat && c.toNat ≤ 90) = true
  · rw [if_pos h]
    simp only [Bool.and_eq_true, decide_eq_true_eq] at h
    rw [char_ofNat_toNat (by omega)]
    omega
  · rw [if_neg h]
    simp only [Bool.and_eq_true, decide_eq_true_eq, not_and, not_le] at h ⊢
    omega

theorem noDD_tail {a : Char} {l : Str} (h : noDoubleDash (a :: l) = true) :
    noDoubleDash l = true := by
  cases l with
  | nil => rfl
  | cons b bs => exact (bandMp h).2

theorem noDD_head {a : Char} {l : Str} (h : noDoubleDash (a :: l) = true)
    (ha : a = '-') : l.head? ≠ some '-' := by
  cases l with
  | nil => simp
  | cons b bs =>
    have h1 := (bandMp h).1
    subst ha
    intro hb
    simp only [List.head?_cons, Option.some.injEq] at hb
    subst hb
    simp at h1

theorem noDD_cons {a : Char} {l : Str} (h2 : noDoubleDash l = true)
    (h1 : a = '-' → l.head? ≠ some '-') : noDoubleDash (a :: l) = true := by
  cases l with
  | nil => rfl
  | cons b bs =>
    refine bandMpr ?_ h2
    by_cases ha : a = '-'
    · have hb : b ≠ '-' := by
        intro hbb
        exact h1 ha (by rw [List.head?_cons, hbb])
      simp [ha, hb]
    · simp [ha]

theorem lower_alnum_facts {c : Char} (hc : isLowerAlnumDash c = true)
    (hne : c ≠ '-') : asciiLower c = c ∧ isAsciiAlnum c = true := by
  simp only [isLowerAlnumDash, Bool.or_eq_true, Bool.and_eq_true,
    decide_eq_true_eq, beq_iff_eq] at hc
  rcases hc with (h | h) | h
  · exact ⟨asciiLower_eq_self (by omega), by
      simp only [isAsciiAlnum, Bool.or_eq_true, Bool.and_eq_true, decide_eq_true_eq]
      omega⟩
  · exact ⟨asciiLower_eq_self (by omega), by
      simp only [isAsciiAlnum, Bool.or_eq_true, Bool.and_eq_true, decide_eq_true_eq]
      omega⟩
  · exact absurd h hne

/-- `sanCore` is the identity on wellformed strings (enumerated with the
matching `last_dash` flag). -/
theorem sanCore_fix : ∀ (s : Str) (b : Bool),
    s.all isLowerAlnumDash = true → noDoubleDash s = true →
    (b = true → s.head? ≠ some '-') → sanCore s b = s := by
  intro s
  induction s with
  | nil => intro b _ _ _; rfl
  | cons c rest ih =>
    intro b hall hdd hb
    rw [List.all_cons, Bool.and_eq_true] at hall
    obtain ⟨hc, hrest⟩ := hall
    by_cases hdash : c = '-'
    · subst hdash
      have hbf : b = false := by
        cases b with
        | false => rfl
        | true =>
          have := hb rfl
          simp at this
      subst hbf
      show '-' :: sanCore rest true = '-' :: rest
      congr 1
      exact ih true hrest (noDD_tail hdd) (fun _ => noDD_head hdd rfl)
    · obtain ⟨hlow, halnum⟩ := lower_alnum_facts hc hdash
      rw [sanCore]
      simp only [hlow, halnum, if_true]
      congr 1
      exact ih false hrest (noDD_tail hdd) (by simp)

/-- Alphanumeric characters are not the dash. -/
theorem alnum_ne_dash {c : Char} (h : isAsciiAlnum c = true) : c ≠ '-' := by
  intro hc
  subst hc
  simp [isAsciiAlnum] at h

/-- `sanCore` output is wellformed: in the alphabet, without double
dashes, and not dash-initial when the flag is set. -/
theorem sanCore_wf : ∀ (s : Str) (b : Bool),
    (sanCore s b).all isLowerAlnumDash = true ∧
    noDoubleDash (sanCore s b) = true ∧
    (b = true → (sanCore s b).head? ≠ some '-') := by
  intro s
  induction s with
  | nil => exact fun b => ⟨rfl, rfl, by simp [sanCore]⟩
  | cons c rest ih =>
    intro b
    by_cases halnum : isAsciiAlnum (asciiLower c) = true
    · have hshape : sanCore (c :: rest) b = asciiLower c :: sanCore rest false := by
        rw [sanCore]; simp only [halnum, if_true]
      have hlowd : isLowerAlnumDash (asciiLower c) = true := by
        have hup := asciiLower_no_upper c
        simp only [isAsciiAlnum, Bool.or_eq_true, Bool.and_eq_true,
          decide_eq_true_eq] at halnum
        simp only [isLowerAlnumDash, Bool.or_eq_true, Bool.and_eq_true,
          decide_eq_true_eq, beq_iff_eq]
        rcases halnum with (h | h) | h
        · omega
        · omega
        · omega
      obtain ⟨iha, ihd, _⟩ := ih false
      refine ⟨?_, ?_, ?_⟩
      · rw [hshape, List.all_cons, hlowd, iha]; rfl
      · rw [hshape]
        refine noDD_cons ihd (fun hud => absurd hud (alnum_ne_dash halnum))
      · intro _ hcontra
        rw [hshape, List.head?_cons, Option.some.injEq] at hcontra
        exact alnum_ne_dash halnum hcontra
    · by_cases hcond :
        ((isAsciiWs (asciiLower c) || asciiLower c == '-' || asciiLower c == '_') && !b)
          = true
      · have hbf : b = false := by
          rcases bandMp hcond with ⟨_, hb2⟩
          cases b
          · rfl
          · cases hb2
        subst hbf
        have hshape : sanCore (c :: rest) false = '-' :: sanCore rest true := by
          rw [sanCore]
          simp only [halnum, hcond, if_true, if_false, Bool.false_eq_true]
        obtain ⟨iha, ihd, ihh⟩ := ih true
        refine ⟨?_, ?_, ?_⟩
        · rw [hshape, List.all_cons, iha]
          simp [isLowerAlnumDash]
        · rw [hshape]
          exact noDD_cons ihd (fun _ => ihh rfl)
        · intro hcontra
          cases hcontra
      · have hshape : sanCore (c :: rest) b = sanCore rest b := by
          rw [sanCore]
          simp only [halnum, hcond, if_false, Bool.false_eq_true]
        obtain ⟨iha, ihd, ihh⟩ := ih b
        exact ⟨hshape ▸ iha, hshape ▸ ihd, fun hbt => hshape ▸ ihh hbt⟩

theorem trimRightBy_append (p : Char → Bool) (l : Str) :
    ∃ t, l = trimRightBy p l ++ t := by
  induction l with
  | nil => exact ⟨[], rfl⟩
  | cons c rest ih =>
    obtain ⟨t, ht⟩ := ih
    cases htr : trimRightBy p rest with
    | nil =>
      by_cases h : p c = true
      · exact ⟨c :: rest, by simp [trimRightBy, htr, h]⟩
      · exact ⟨rest, by simp [trimRightBy, htr, h]⟩
    | cons d ds =>
      refine ⟨t, ?_⟩
      rw [htr] at ht
      rw [trimRightBy, htr]
      simp only [List.isEmpty_cons, Bool.false_eq_true, if_false]
      rw [List.cons_append, ← ht]

theorem all_of_append_left {p : Char → Bool} {l t : Str}
    (h : (l ++ t).all p = true) : l.all p = true := by
  rw [List.all_append] at h
  exact (bandMp h).1

theorem all_of_append_right {p : Char → Bool} {l t : Str}
    (h : (l ++ t).all p = true) : t.all p = true := by
  rw [List.all_append] at h
  exact (bandMp h).2

theorem noDD_append_left : ∀ (l t : Str), noDoubleDash (l ++ t) = true →
    noDoubleDash l = true := by
  intro l
  induction l with
  | nil => intro t _; rfl
  | cons a l' ih =>
    intro t h
    cases l' with
    | nil => rfl
    | cons b bs =>
      rw [List.cons_append, List.cons_append, noDoubleDash] at h
      obtain ⟨h1, h2⟩ := bandMp h
      rw [noDoubleDash]
      refine bandMpr h1 (ih t ?_)
      rw [List.cons_append]
      exact h2

theorem noDD_append_right : ∀ (t l : Str), noDoubleDash (t ++ l) = true →
    noDoubleDash l = true := by
  intro t
  induction t with
  | nil => intro l h; exact h
  | cons a t' ih =>
    intro l h
    rw [List.cons_append] at h
    exact ih l (noDD_tail h)

theorem head_dropWhile_false (p : Char → Bool) :
    ∀ (l : Str) (c : Char), (l.dropWhile p).head? = some c → p c = false := by
  intro l
  induction l with
  | nil => intro c h; simp at h
  | cons a rest ih =>
    intro c h
    by_cases hp : p a = true
    · rw [List.dropWhile_cons, if_pos hp] at h
      exact ih c h
    · rw [List.dropWhile_cons, if_neg hp] at h
      rw [List.head?_cons, Option.some.injEq] at h
      simp only [Bool.not_eq_true] at hp
      rw [← h]
      exact hp

theorem getLast_trimRightBy_false (p : Char → Bool) :
    ∀ (l : Str) (c : Char), (trimRightBy p l).getLast? = some c → p c = false := by
  intro l
  induction l with
  | nil => intro c h; simp [trimRightBy] at h
  | cons a rest ih =>
    intro c h
    cases htr : trimRightBy p rest with
    | nil =>
      rw [trimRightBy, htr] at h
      by_cases hp : p a = true
      · simp [hp] at h
      · simp only [List.isEmpty_nil, if_true, if_neg hp] at h
        simp only [List.getLast?_singleton, Option.some.injEq] at h
        simp only [Bool.not_eq_true] at hp
        rw [← h]
        exact hp
    | cons d ds =>
      rw [trimRightBy, htr] at h
      simp only [List.isEmpty_cons, Bool.false_eq_true, if_false] at h
      rw [List.getLast?_cons_cons, ← htr] at h
      exact ih c h

theorem trimRightBy_eq_self (p : Char → Bool) :
    ∀ (l : Str), (∀ c, l.getLast? = some c → p c = false) → trimRightBy p l = l := by
  intro l
  induction l with
  | nil => intro _; rfl
  | cons a rest ih =>
    intro h
    cases rest with
    | nil =>
      have ha := h a (by simp)
      simp [trimRightBy, ha]
    | cons b bs =>
      have ht : trimRightBy p (b :: bs) = b :: bs :=
        ih (fun c hc => h c (by rw [List.getLast?_cons_cons]; exact hc))
      rw [trimRightBy, ht]
      simp

theorem dropWhile_eq_self_of_head (p : Char → Bool) (l : Str)
    (h : ∀ c, l.head? = some c → p c = false) : l.dropWhile p = l := by
  cases l with
  | nil => rfl
  | cons a rest =>
    have ha := h a rfl
    rw [List.dropWhile_cons, ha]
    simp

/-- The output of `sanitizeId` is wellformed: over the alphabet, no
double dash, and neither dash-initial nor dash-final. -/
theorem sanitizeId_wf (s : Str) :
    (sanitizeId s).all isLowerAlnumDash = true ∧
    noDoubleDash (sanitizeId s) = true ∧
    (∀ c, (sanitizeId s).head? = some c → c ≠ '-') ∧
    (∀ c, (sanitizeId s).getLast? = some c → c ≠ '-') := by
  obtain ⟨ha, hd, _⟩ := sanCore_wf s false
  obtain ⟨tsuf, htsuf⟩ :=
    List.dropWhile_suffix (l := sanCore s false) (fun c => c == '-')
  have hva : ((sanCore s false).dropWhile (fun c => c == '-')).all
      isLowerAlnumDash = true :=
    all_of_append_right (t := (sanCore s false).dropWhile (fun c => c == '-'))
      (by rw [htsuf]; exact ha)
  have hvd : noDoubleDash ((sanCore s false).dropWhile (fun c => c == '-')) = true :=
    noDD_append_right tsuf _ (by rw [htsuf]; exact hd)
  have hw : sanitizeId s
      = trimRightBy (fun c => c == '-')
          ((sanCore s false).dropWhile (fun c => c == '-')) := rfl
  obtain ⟨t2, ht2⟩ :=
    trimRightBy_append (fun c => c == '-')
      ((sanCore s false).dropWhile (fun c => c == '-'))
  refine ⟨?_, ?_, ?_, ?_⟩
  · rw [hw]
    exact all_of_append_left (by rw [← ht2]; exact hva)
  · rw [hw]
    exact noDD_append_left _ t2 (by rw [← ht2]; exact hvd)
  · intro c hc
    rw [hw] at hc
    cases hw' : trimRightBy (fun c => c == '-')
        ((sanCore s false).dropWhile (fun c => c == '-')) with
    | nil => rw [hw'] at hc; cases hc
    | cons x xs =>
      rw [hw', List.head?_cons, Option.some.injEq] at hc
      have hhv : ((sanCore s false).dropWhile (fun c => c == '-')).head? = some x := by
        rw [ht2, hw']
        rfl
      have hfalse := head_dropWhile_false (fun c => c == '-') (sanCore s false) x hhv
      rw [← hc]
      intro hxd
      rw [hxd] at hfalse
      simp at hfalse
  · intro c hc
    rw [hw] at hc
    have hfalse := getLast_trimRightBy_false (fun c => c == '-') _ c hc
    intro hcd
    rw [hcd] at hfalse
    simp at hfalse

/-- `sanitizeId` is the identity on wellformed strings. -/
theorem sanitizeId_fix (s : Str)
    (ha : s.all isLowerAlnumDash = true) (hd : noDoubleDash s = true)
    (hh : ∀ c, s.head? = some c → c ≠ '-')
    (hl : ∀ c, s.getLast? = some c → c ≠ '-') :
    sanitizeId s = s := by
  have h1 : sanCore s false = s := sanCore_fix s false ha hd (by simp)
  show trimDashes (sanCore s false) = s
  rw [h1]
  show trimRightBy _ (s.dropWhile _) = s
  rw [dropWhile_eq_self_of_head _ s (fun c hc => by simpa using hh c hc)]
  exact trimRightBy_eq_self _ s (fun c hc => by simpa using hl c hc)

/-- `sanitize_id` is idempotent. -/
theorem sanitizeId_idem (s : Str) : sanitizeId (sanitizeId s) = sanitizeId s := by
  obtain ⟨ha, hd, hh, hl⟩ := sanitizeId_wf s
  exact sanitizeId_fix _ ha hd hh hl

/-! ### The room pass -/

/-- The fixpoints of the room pass: sanitized non-empty id, trimmed
name, cleaned source area. -/
def roomFixed (r : HassRoomConfig) : Prop :=
  sanitizeId r.id = r.id ∧ r.id.isEmpty = false ∧
  rustTrim r.name = r.name ∧ cleanOptStr r.sourceArea = r.sourceArea

/-- Room ids are pairwise distinct and avoid the accumulator. -/
def distinctFrom : List Str → List HassRoomConfig → Prop
  | _, [] => True
  | seen, r :: rest => seen.contains r.id = false ∧ distinctFrom (r.id :: seen) rest

theorem normRoomId_as_sanitize (room : HassRoomConfig) :
    ∃ s, normRoomId room = sanitizeId s := by
  unfold normRoomId
  by_cases h : (sanitizeId room.id).isEmpty = true
  · rw [if_pos h]; exact ⟨room.name, rfl⟩
  · rw [if_neg h]; exact ⟨room.id, rfl⟩

theorem normalizeRoomsGo_mem : ∀ (rooms : List HassRoomConfig) (seen : List Str)
    (r : HassRoomConfig), r ∈ normalizeRoomsGo seen rooms → roomFixed r := by
  intro rooms
  induction rooms with
  | nil => intro seen r h; cases h
  | cons room rest ih =>
    intro seen r h
    by_cases hcond :
        ((normRoomId room).isEmpty || seen.contains (normRoomId room)) = true
    · rw [normalizeRoomsGo, if_pos hcond] at h
      exact ih seen r h
    · rw [normalizeRoomsGo, if_neg hcond] at h
      simp only [Bool.or_eq_true, not_or, Bool.not_eq_true] at hcond
      obtain ⟨hempty, _⟩ := hcond
      rcases List.mem_cons.mp h with rfl | hmem
      · obtain ⟨s0, hs0⟩ := normRoomId_as_sanitize room
        refine ⟨?_, hempty, rustTrim_idem _, cleanOptStr_idem _⟩
        show sanitizeId (normRoomId room) = normRoomId room
        rw [hs0]
        exact sanitizeId_idem s0
      · exact ih _ r hmem

theorem normalizeRoomsGo_distinct : ∀ (rooms : List HassRoomConfig)
    (seen : List Str), distinctFrom seen (normalizeRoomsGo seen rooms) := by
  intro rooms
  induction rooms with
  | nil => intro seen; trivial
  | cons room rest ih =>
    intro seen
    by_cases hcond :
        ((normRoomId room).isEmpty || seen.contains (normRoomId room)) = true
    · rw [normalizeRoomsGo, if_pos hcond]
      exact ih seen
    · rw [normalizeRoomsGo, if_neg hcond]
      simp only [Bool.or_eq_true, not_or, Bool.not_eq_true] at hcond
      exact ⟨hcond.2, ih _⟩

theorem normalizeRoomsGo_fix : ∀ (rooms : List HassRoomConfig) (seen : List Str),
    (∀ r ∈ rooms, roomFixed r) → distinctFrom seen rooms →
    normalizeRoomsGo seen rooms = rooms := by
  intro rooms
  induction rooms with
  | nil => intro seen _ _; rfl
  | cons room rest ih =>
    intro seen hfix hdist
    obtain ⟨hid, hne, hname, hsrc⟩ := hfix room (List.mem_cons_self room rest)
    obtain ⟨hseen, hrest⟩ := hdist
    have hnorm : normRoomId room = room.id := by
      unfold normRoomId
      rw [hid, hne]
      simp
    rw [normalizeRoomsGo, hnorm, if_neg (by rw [hne, hseen]; simp)]
    have hroom : (⟨room.id, rustTrim room.name, cleanOptStr room.sourceArea,
        room.autoCreated⟩ : HassRoomConfig) = room := by
      obtain ⟨i, n, sa, ac⟩ := room
      simp only at hname hsrc ⊢
      rw [hname, hsrc]
    rw [hroom]
    rw [ih (room.id :: seen) (fun r hr => hfix r (List.mem_cons_of_mem room hr)) hrest]

theorem distinctFrom_congr : ∀ (rooms : List HassRoomConfig) (seen1 seen2 : List Str),
    (∀ i : Str, seen1.contains i = seen2.contains i) →
    distinctFrom seen1 rooms → distinctFrom seen2 rooms := by
  intro rooms
  induction rooms with
  | nil => intro _ _ _ _; trivial
  | cons room rest ih =>
    intro seen1 seen2 hc ⟨h1, h2⟩
    refine ⟨by rw [← hc room.id]; exact h1, ?_⟩
    exact ih _ _ (fun i => by
      simp only [List.contains_cons]
      rw [hc i]) h2

theorem distinctFrom_extend : ∀ (rooms : List HassRoomConfig) (seen : List Str)
    (x : Str), distinctFrom seen rooms →
    (∀ r ∈ rooms, (r.id == x) = false) → distinctFrom (x :: seen) rooms := by
  intro rooms
  induction rooms with
  | nil => intro _ _ _ _; trivial
  | cons room rest ih =>
    intro seen x ⟨h1, h2⟩ hnx
    refine ⟨?_, ?_⟩
    · rw [List.contains_cons, hnx room (List.mem_cons_self room rest), h1]
      rfl
    · have hstep := ih (room.id :: seen) x h2
        (fun r hr => hnx r (List.mem_cons_of_mem room hr))
      exact distinctFrom_congr rest _ _
        (fun i => by
          simp only [List.contains_cons]
          rw [Bool.or_left_comm]) hstep

/-- The default "home-assistant" room is a fixpoint of the room pass. -/
theorem defaultRoom_fixed :
    roomFixed ⟨defaultRoomId, defaultRoomName, none, false⟩ := by
  refine ⟨by decide, by decide, by decide, rfl⟩

theorem ensureDefaultRoom_mem {rooms : List HassRoomConfig} {r : HassRoomConfig}
    (h : r ∈ ensureDefaultRoom rooms) :
    r = ⟨defaultRoomId, defaultRoomName, none, false⟩ ∨ r ∈ rooms := by
  unfold ensureDefaultRoom at h
  split at h
  · exact Or.inr h
  · rcases List.mem_cons.mp h with rfl | hm
    · exact Or.inl rfl
    · exact Or.inr hm

theorem ensureDefaultRoom_has (rooms : List HassRoomConfig) :
    (ensureDefaultRoom rooms).any (fun r => r.id == defaultRoomId) = true := by
  unfold ensureDefaultRoom
  split
  · next h => exact h
  · rw [List.any_cons]
    simp

theorem ensureDefaultRoom_of_has {rooms : List HassRoomConfig}
    (h : rooms.any (fun r => r.id == defaultRoomId) = true) :
    ensureDefaultRoom rooms = rooms := by
  unfold ensureDefaultRoom
  rw [if_pos h]

theorem roomsPass_mem {rooms : List HassRoomConfig} {r : HassRoomConfig}
    (hr : r ∈ roomsPass rooms) : roomFixed r :=
  (ensureDefaultRoom_mem hr).elim (fun h => h ▸ defaultRoom_fixed)
    (normalizeRoomsGo_mem rooms [] r)

theorem roomsPass_distinct (rooms : List HassRoomConfig) :
    distinctFrom [] (roomsPass rooms) := by
  unfold roomsPass ensureDefaultRoom
  split
  · exact normalizeRoomsGo_distinct rooms []
  · next hno =>
    refine ⟨rfl, ?_⟩
    refine distinctFrom_extend _ [] defaultRoomId
      (normalizeRoomsGo_distinct rooms []) ?_
    intro r hr
    rw [Bool.not_eq_true, List.any_eq_false] at hno
    have := hno r hr
    simpa using this

/-- The room stage is idempotent. -/
theorem roomsPass_idem (rooms : List HassRoomConfig) :
    roomsPass (roomsPass rooms) = roomsPass rooms := by
  show ensureDefaultRoom (normalizeRoomsGo [] (roomsPass rooms)) = roomsPass rooms
  rw [normalizeRoomsGo_fix (roomsPass rooms) []
    (fun r hr => roomsPass_mem hr) (roomsPass_distinct rooms)]
  exact ensureDefaultRoom_of_has (ensureDefaultRoom_has _)

/-! ### The preference passes -/

/-- The first preference entry for `id` has its `visible` field set. -/
def firstVisibleIsSome (prefs : List (Str × HassEntityPreference)) (id : Str) : Prop :=
  ∃ q, prefs.find? (fun q => q.1 == id) = some q ∧ q.2.visible.isSome = true

theorem setVisibleDefaultFalse_fix :
    ∀ (prefs : List (Str × HassEntityPreference)) (id : Str),
      firstVisibleIsSome prefs id → setVisibleDefaultFalse prefs id = prefs := by
  intro prefs
  induction prefs with
  | nil =>
    rintro id ⟨q, hq, _⟩
    simp at hq
  | cons kp rest ih =>
    rintro id ⟨q, hq, hv⟩
    obtain ⟨k, p⟩ := kp
    by_cases hk : (k == id) = true
    · rw [List.find?_cons_of_pos _ (by simpa using hk)] at hq
      cases hq
      obtain ⟨v, hv'⟩ := Option.isSome_iff_exists.mp hv
      rw [setVisibleDefaultFalse, if_pos hk]
      simp only at hv'
      rw [hv']
      simp only [Option.getD_some]
      rw [← hv']
    · rw [List.find?_cons_of_neg _ (by simpa using hk)] at hq
      rw [setVisibleDefaultFalse, if_neg hk]
      rw [ih id ⟨q, hq, hv⟩]

theorem setVisibleDefaultFalse_first :
    ∀ (prefs : List (Str × HassEntityPreference)) (id : Str),
      firstVisibleIsSome (setVisibleDefaultFalse prefs id) id := by
  intro prefs
  induction prefs with
  | nil =>
    intro id
    refine ⟨(id, { emptyPreference with visible := some false }), ?_, rfl⟩
    rw [setVisibleDefaultFalse]
    exact List.find?_cons_of_pos _ (by simp)
  | cons kp rest ih =>
    intro id
    obtain ⟨k, p⟩ := kp
    by_cases hk : (k == id) = true
    · rw [setVisibleDefaultFalse, if_pos hk]
      exact ⟨(k, { p with visible := some (p.visible.getD false) }),
        List.find?_cons_of_pos _ (by simpa using hk), rfl⟩
    · rw [setVisibleDefaultFalse, if_neg hk]
      obtain ⟨q, hq, hv⟩ := ih id
      exact ⟨q, by rw [List.find?_cons_of_neg _ (by simpa using hk)]; exact hq, hv⟩

theorem setVisibleDefaultFalse_preserves :
    ∀ (prefs : List (Str × HassEntityPreference)) (id id' : Str),
      firstVisibleIsSome prefs id →
      firstVisibleIsSome (setVisibleDefaultFalse prefs id') id := by
  intro prefs
  induction prefs with
  | nil =>
    rintro id id' ⟨q, hq, _⟩
    simp at hq
  | cons kp rest ih =>
    rintro id id' ⟨q, hq, hv⟩
    obtain ⟨k, p⟩ := kp
    by_cases hk' : (k == id') = true
    · rw [setVisibleDefaultFalse, if_pos hk']
      by_cases hk : (k == id) = true
      · rw [List.find?_cons_of_pos _ (by simpa using hk)] at hq
        cases hq
        refine ⟨(k, { p with visible := some (p.visible.getD false) }),
          List.find?_cons_of_pos _ (by simpa using hk), rfl⟩
      · rw [List.find?_cons_of_neg _ (by simpa using hk)] at hq
        exact ⟨q, by rw [List.find?_cons_of_neg _ (by simpa using hk)]; exact hq, hv⟩
    · rw [setVisibleDefaultFalse, if_neg hk']
      by_cases hk : (k == id) = true
      · rw [List.find?_cons_of_pos _ (by simpa using hk)] at hq
        cases hq
        exact ⟨(k, p), List.find?_cons_of_pos _ (by simpa using hk), hv⟩
      · rw [List.find?_cons_of_neg _ (by simpa using hk)] at hq
        obtain ⟨q2, hq2, hv2⟩ := ih id id' ⟨q, hq, hv⟩
        exact ⟨q2, by rw [List.find?_cons_of_neg _ (by simpa using hk)]; exact hq2, hv2⟩

theorem forceHiddenVisible_preserves :
    ∀ (ids : List Str) (prefs : List (Str × HassEntityPreference)) (id : Str),
      firstVisibleIsSome prefs id →
      firstVisibleIsSome (forceHiddenVisible prefs ids) id := by
  intro ids
  induction ids with
  | nil => intro prefs id h; exact h
  | cons i rest ih =>
    intro prefs id h
    exact ih _ id (setVisibleDefaultFalse_preserves prefs id i h)

theorem forceHiddenVisible_first :
    ∀ (ids : List Str) (prefs : List (Str × HassEntityPreference)),
      ∀ id ∈ ids, firstVisibleIsSome (forceHiddenVisible prefs ids) id := by
  intro ids
  induction ids with
  | nil => intro prefs id h; cases h
  | cons i rest ih =>
    intro prefs id h
    rcases List.mem_cons.mp h with rfl | hmem
    · exact forceHiddenVisible_preserves rest _ id
        (setVisibleDefaultFalse_first prefs id)
    · exact ih _ id hmem

theorem forceHiddenVisible_fix :
    ∀ (ids : List Str) (prefs : List (Str × HassEntityPreference)),
      (∀ id ∈ ids, firstVisibleIsSome prefs id) →
      forceHiddenVisible prefs ids = prefs := by
  intro ids
  induction ids with
  | nil => intro prefs _; rfl
  | cons i rest ih =>
    intro prefs h
    show forceHiddenVisible (setVisibleDefaultFalse prefs i) rest = prefs
    rw [setVisibleDefaultFalse_fix prefs i (h i (List.mem_cons_self i rest))]
    exact ih prefs (fun id hid => h id (List.mem_cons_of_mem i hid))

/-- The fixpoints of the retain pass. -/
def prefEntryFixed (roomIds : List Str) (kp : Str × HassEntityPreference) : Prop :=
  (rustTrim kp.1).isEmpty = false ∧
  (∀ rid, kp.2.roomId = some rid → roomIds.contains rid = true) ∧
  cleanOptStr kp.2.aliasName = kp.2.aliasName ∧
  prefHasData kp.2 = true

theorem retainTransform_fix {roomIds : List Str} {p : HassEntityPreference}
    (hroom : ∀ rid, p.roomId = some rid → roomIds.contains rid = true)
    (halias : cleanOptStr p.aliasName = p.aliasName) :
    retainTransform roomIds p = p := by
  obtain ⟨vis, rid, al, sk, se, sm, la⟩ := p
  simp only at hroom halias
  cases rid with
  | none =>
    simp only [retainTransform, halias]
  | some r =>
    have hc := hroom r rfl
    simp only [retainTransform, hc, if_true, halias]

theorem retainTransform_visible (roomIds : List Str) (p : HassEntityPreference) :
    (retainTransform roomIds p).visible = p.visible := by
  obtain ⟨vis, rid, al, sk, se, sm, la⟩ := p
  cases rid with
  | none => rfl
  | some r =>
    dsimp only [retainTransform]
    by_cases hc : roomIds.contains r = true
    · rw [if_pos hc]
    · rw [if_neg hc]

theorem retainTransform_wf (roomIds : List Str) (p : HassEntityPreference) :
    (∀ rid, (retainTransform roomIds p).roomId = some rid →
      roomIds.contains rid = true) ∧
    cleanOptStr (retainTransform roomIds p).aliasName
      = (retainTransform roomIds p).aliasName := by
  obtain ⟨vis, rid, al, sk, se, sm, la⟩ := p
  cases rid with
  | none =>
    refine ⟨?_, cleanOptStr_idem _⟩
    intro r h
    exact absurd h (by simp [retainTransform])
  | some r0 =>
    dsimp only [retainTransform]
    by_cases hc : roomIds.contains r0 = true
    · rw [if_pos hc]
      refine ⟨?_, cleanOptStr_idem _⟩
      intro r h
      have hr : r0 = r := by
        simpa using h
      rw [← hr]
      exact hc
    · rw [if_neg hc]
      refine ⟨?_, cleanOptStr_idem _⟩
      intro r h
      exact absurd h (by simp)

theorem retainPrefs_mem {roomIds : List Str}
    {prefs : List (Str × HassEntityPreference)} {kp : Str × HassEntityPreference}
    (h : kp ∈ retainPrefs roomIds prefs) : prefEntryFixed roomIds kp := by
  obtain ⟨a, _, ha⟩ := List.mem_filterMap.mp h
  by_cases ht : (rustTrim a.1).isEmpty = true
  · rw [if_pos ht] at ha; cases ha
  · rw [if_neg ht] at ha
    by_cases hd : prefHasData (retainTransform roomIds a.2) = true
    · rw [if_pos hd] at ha
      cases ha
      obtain ⟨hroom, halias⟩ := retainTransform_wf roomIds a.2
      exact ⟨by simpa using ht, hroom, halias, hd⟩
    · rw [if_neg hd] at ha; cases ha

theorem retainPrefs_fix {roomIds : List Str}
    {prefs : List (Str × HassEntityPreference)}
    (h : ∀ kp ∈ prefs, prefEntryFixed roomIds kp) :
    retainPrefs roomIds prefs = prefs := by
  induction prefs with
  | nil => rfl
  | cons kp rest ih =>
    obtain ⟨htrim, hroom, halias, hdata⟩ := h kp (List.mem_cons_self kp rest)
    have htf : retainTransform roomIds kp.2 = kp.2 := retainTransform_fix hroom halias
    show List.filterMap _ (kp :: rest) = kp :: rest
    rw [List.filterMap_cons]
    rw [if_neg (by rw [htrim]; simp), htf, if_pos hdata]
    have ihr : retainPrefs roomIds rest = rest :=
      ih (fun q hq => h q (List.mem_cons_of_mem kp hq))
    rw [show List.filterMap _ rest = retainPrefs roomIds rest from rfl, ihr]

theorem retainPrefs_preserves_first {roomIds : List Str}
    {id : Str} (hid : (rustTrim id).isEmpty = false) :
    ∀ (prefs : List (Str × HassEntityPreference)),
      firstVisibleIsSome prefs id →
      firstVisibleIsSome (retainPrefs roomIds prefs) id := by
  intro prefs
  induction prefs with
  | nil =>
    rintro ⟨q, hq, _⟩
    simp at hq
  | cons kp rest ih =>
    rintro ⟨q, hq, hv⟩
    by_cases hk : (kp.1 == id) = true
    · rw [List.find?_cons_of_pos _ (by simpa using hk)] at hq
      cases hq
      have hkeq : kp.1 = id := by simpa using hk
      have htrim : (rustTrim kp.1).isEmpty = false := by rw [hkeq]; exact hid
      have hdata : prefHasData (retainTransform roomIds kp.2) = true := by
        unfold prefHasData
        rw [retainTransform_visible, hv]
        rfl
      show firstVisibleIsSome (List.filterMap _ (kp :: rest)) id
      rw [List.filterMap_cons, if_neg (by rw [htrim]; simp), if_pos hdata]
      refine ⟨(kp.1, retainTransform roomIds kp.2),
        List.find?_cons_of_pos _ (by simpa using hk), ?_⟩
      show (retainTransform roomIds kp.2).visible.isSome = true
      rw [retainTransform_visible]
      exact hv
    · rw [List.find?_cons_of_neg _ (by simpa using hk)] at hq
      have hrest := ih ⟨q, hq, hv⟩
      show firstVisibleIsSome (List.filterMap _ (kp :: rest)) id
      rw [List.filterMap_cons]
      by_cases ht : (rustTrim kp.1).isEmpty = true
      · rw [if_pos ht]
        exact hrest
      · rw [if_neg ht]
        by_cases hd : prefHasData (retainTransform roomIds kp.2) = true
        · rw [if_pos hd]
          obtain ⟨q2, hq2, hv2⟩ := hrest
          exact ⟨q2, by rw [List.find?_cons_of_neg _ (by simpa using hk)]; exact hq2, hv2⟩
        · rw [if_neg hd]
          exact hrest

/-- C8: `HassUiConfig::normalize` is idempotent. -/
theorem normalize_idem (c : HassUiConfig) :
    c.normalize.normalize = c.normalize := by
  have hids : ∀ id ∈ cleanStrList c.hiddenEntityIds ++ cleanStrList c.excludeEntityIds,
      rustTrim id = id ∧ id.isEmpty = false := by
    intro id hid
    rcases List.mem_append.mp hid with h | h
    · exact mem_cleanStrList h
    · exact mem_cleanStrList h
  have hfirst : ∀ id ∈ cleanStrList c.hiddenEntityIds ++ cleanStrList c.excludeEntityIds,
      firstVisibleIsSome
        (retainPrefs ((roomsPass c.rooms).map (fun r => r.id))
          (forceHiddenVisible c.entityPreferences
            (cleanStrList c.hiddenEntityIds ++ cleanStrList c.excludeEntityIds))) id := by
    intro id hid
    obtain ⟨htr, hne⟩ := hids id hid
    refine retainPrefs_preserves_first (by rw [htr]; exact hne) _ ?_
    exact forceHiddenVisible_first _ _ id hid
  dsimp only [HassUiConfig.normalize]
  congr 1
  · exact cleanStrList_idem _
  · exact cleanStrList_idem _
  · exact cleanStrList_idem _
  · exact roomsPass_idem _
  · rw [cleanStrList_idem c.hiddenEntityIds, cleanStrList_idem c.excludeEntityIds,
      roomsPass_idem c.rooms]
    rw [forceHiddenVisible_fix _ _ hfirst]
    exact retainPrefs_fix (fun kp hkp => retainPrefs_mem hkp)
  · exact cleanStrList_idem _
  · exact cleanOptStr_idem _
  · exact cleanOptStr_idem _
  · exact cleanOptStr_idem _

end Bifrost
